import Mathlib

/-!
# Doppelgänger RFID Community Edition: the Wiegand capture and decode engine

A shallow embedding of the capture and decode core of `src/main.cpp`:
the two interrupt handlers `ISR_INT0` / `ISR_INT1`, `getDataStream`,
`getFacilityCodeCardNumber`, `getCardValues` and the frame part of `loop`.

Conventions.
* The globals of `main.cpp` are the fields of `State`, under their own names.
* `unsigned int` and `unsigned long` are 32 bits wide on the ESP32 target: they are
  natural numbers kept below `WORD = 2^32`, every increment, decrement and left shift
  being reduced modulo `WORD` explicitly.
* `databits` is a function from cell index to cell value.  Cells `0 .. MAX_BITS-1` are
  the array `unsigned char databits[MAX_BITS]`; a cell of index `MAX_BITS` or more lies
  outside the array, so that a store to such a cell is an out-of-bounds store.  In the
  program such a store lands on the globals that follow the array, which the embedding
  does not represent: it follows the program for frames of at most `MAX_BITS` events, and
  the theorems on captured and decoded values are stated for such frames.
* A result of `none` stands for a call that never returns.
* An edge event is served between two passes of `loop` (`Reach`, `frameCycle`), except in
  `cleanupInterrupted`, where it is served between two statements of the cleanup.
-/

namespace Doppelganger

/-! ## Constants and state -/

/-- Source: `#define MAX_BITS 100`, the size of `databits`. -/
def MAX_BITS : Nat := 100

/-- Source: `#define WEIGAND_WAIT_TIME 3000`. -/
def WEIGAND_WAIT_TIME : Nat := 3000

/-- Number of values of a 32-bit `unsigned int` / `unsigned long`. -/
def WORD : Nat := 4294967296

/-- The globals of `main.cpp` touched by the capture and decode engine. -/
structure State where
  databits : Nat → Nat
  bitCount : Nat
  flagDone : Nat
  weigand_counter : Nat
  facilityCode : Nat
  cardNumber : Nat
  dataStream : Nat
  dataStreamBIN : List Char
  bitHolder1 : Nat
  bitHolder2 : Nat
  cardChunk1 : Nat
  cardChunk2 : Nat

/-- The state `setup` leaves: zero-initialised globals and
`weigand_counter = WEIGAND_WAIT_TIME`. -/
def initState : State where
  databits := fun _ => 0
  bitCount := 0
  flagDone := 0
  weigand_counter := WEIGAND_WAIT_TIME
  facilityCode := 0
  cardNumber := 0
  dataStream := 0
  dataStreamBIN := []
  bitHolder1 := 0
  bitHolder2 := 0
  cardChunk1 := 0
  cardChunk2 := 0

/-- The reset state: what the cleanup at the end of `loop` establishes (and what holds
after `setup`); `flagDone` and `weigand_counter` are left free. -/
def IsReset (s : State) : Prop :=
  s.bitCount = 0 ∧ (∀ i, i < MAX_BITS → s.databits i = 0) ∧
  s.facilityCode = 0 ∧ s.cardNumber = 0 ∧ s.bitHolder1 = 0 ∧ s.bitHolder2 = 0 ∧
  s.cardChunk1 = 0 ∧ s.cardChunk2 = 0 ∧ s.dataStream = 0 ∧ s.dataStreamBIN = []

/-! ## The interrupt handlers -/

/-- Source: `ISR_INT0`, the handler of a falling edge on DATA0 (a 0 bit). -/
def ISR_INT0 (s : State) : State :=
  let s1 := { s with bitCount := (s.bitCount + 1) % WORD }
  let s2 := { s1 with flagDone := 0 }
  let s3 :=
    if s2.bitCount < 23 then
      { s2 with bitHolder1 := (s2.bitHolder1 <<< 1) % WORD }
    else
      { s2 with bitHolder2 := (s2.bitHolder2 <<< 1) % WORD }
  { s3 with weigand_counter := WEIGAND_WAIT_TIME }

/-- Source: `ISR_INT1`, the handler of a falling edge on DATA1 (a 1 bit).  With
`bitCount` at `MAX_BITS` or more the store `databits[bitCount] = 1` is outside the array:
it is kept in a cell of its own here, where the program overwrites what follows the
array. -/
def ISR_INT1 (s : State) : State :=
  let s0 := { s with databits := Function.update s.databits s.bitCount 1 }
  let s1 := { s0 with bitCount := (s0.bitCount + 1) % WORD }
  let s2 := { s1 with flagDone := 0 }
  let s3 :=
    if s2.bitCount < 23 then
      { s2 with bitHolder1 := ((s2.bitHolder1 <<< 1) % WORD) ||| 1 }
    else
      { s2 with bitHolder2 := ((s2.bitHolder2 <<< 1) % WORD) ||| 1 }
  { s3 with weigand_counter := WEIGAND_WAIT_TIME }

/-- The two kinds of edge event: `ZERO` is served by `ISR_INT0`, `ONE` by `ISR_INT1`. -/
inductive Event where
  | ZERO : Event
  | ONE : Event
  deriving DecidableEq, Repr

/-- The bit value an event stands for. -/
def Event.bit : Event → Nat
  | Event.ZERO => 0
  | Event.ONE => 1

/-- Dispatch of one edge event to its handler (`attachInterrupt` in `setup`). -/
def handle (s : State) (e : Event) : State :=
  match e with
  | Event.ZERO => ISR_INT0 s
  | Event.ONE => ISR_INT1 s

/-- The state after a sequence of events, in arrival order, with no loop pass between. -/
def capture (s : State) (es : List Event) : State :=
  es.foldl handle s

/-! ## Format decoder -/

/-- One `for (i = lo; i < hi; i++) { acc <<= 1; acc |= databits[i]; }` loop of
`getFacilityCodeCardNumber`, on a 32-bit accumulator. -/
def shiftInBits (databits : Nat → Nat) (lo hi : Nat) (acc : Nat) : Nat :=
  (List.range' lo (hi - lo)).foldl (fun a i => ((a <<< 1) % WORD) ||| databits i) acc

/-- Source: `getFacilityCodeCardNumber`. -/
def getFacilityCodeCardNumber (s : State) : State :=
  match s.bitCount with
  | 26 =>
    { s with facilityCode := shiftInBits s.databits 1 9 s.facilityCode,
             cardNumber := shiftInBits s.databits 9 25 s.cardNumber }
  | 27 =>
    { s with facilityCode := shiftInBits s.databits 1 13 s.facilityCode,
             cardNumber := shiftInBits s.databits 14 27 s.cardNumber }
  | 29 =>
    { s with facilityCode := shiftInBits s.databits 1 13 s.facilityCode,
             cardNumber := shiftInBits s.databits 14 29 s.cardNumber }
  | 33 =>
    { s with facilityCode := shiftInBits s.databits 1 8 s.facilityCode,
             cardNumber := shiftInBits s.databits 8 32 s.cardNumber }
  | 34 =>
    { s with facilityCode := shiftInBits s.databits 1 17 s.facilityCode,
             cardNumber := shiftInBits s.databits 17 33 s.cardNumber }
  | 35 =>
    { s with facilityCode := shiftInBits s.databits 2 14 s.facilityCode,
             cardNumber := shiftInBits s.databits 14 34 s.cardNumber }
  | 37 =>
    { s with facilityCode := shiftInBits s.databits 1 17 s.facilityCode,
             cardNumber := shiftInBits s.databits 17 36 s.cardNumber }
  | _ => s

/-! ## Chunk encoder -/

/-- Modelled from the spec: the Arduino core macro `bitRead(value, bit)`, which is not
under `src/`; it reads one bit of a word, `((value) >> (bit)) & 0x01` (§4.4 copies single
bits of the holders into the chunks). -/
def bitRead (value bit : Nat) : Nat :=
  (value >>> bit) &&& 1

/-- Modelled from the spec: the Arduino core macro `bitWrite(value, bit, bitvalue)`, which
is not under `src/`; it sets (`value |= (1UL << bit)`) or clears
(`value &= ~(1UL << bit)`) one bit of a 32-bit word (§4.4 writes sentinel bits and copied
bits at index positions of the chunks).  The shifted constant is reduced modulo `WORD`,
so that a bit index of 32 or more selects no bit of the word. -/
def bitWrite (value bit bitvalue : Nat) : Nat :=
  if bitvalue ≠ 0 then
    value ||| ((1 <<< bit) % WORD)
  else
    value &&& ((WORD - 1) ^^^ ((1 <<< bit) % WORD))

/-- The loop `for (int i = top; i >= 0; i--) body` of `getCardValues`, entered with
`n = top + 1`: the body runs at `i = n-1, n-2, ..., 0`. -/
def countDown (body : State → Nat → State) : Nat → State → State
  | 0, s => s
  | n + 1, s => countDown body n (body s n)

/-- The loop body shared by the cases 26 to 36 of `getCardValues`, which differ only in
their constants: `if (i == hi || i == lo) .. else if (i > lo) .. else
bitRead(bitHolder1, i + shift)`, then `if (i < a) bitWrite(cardChunk2, i + k, ..)` and
`if (i < b) bitWrite(cardChunk2, i, ..)`. -/
def cardValuesBody (hi lo shift a k b : Nat) (s : State) (i : Nat) : State :=
  let s1 :=
    if i = hi ∨ i = lo then
      { s with cardChunk1 := bitWrite s.cardChunk1 i 1 }
    else if i > lo then
      { s with cardChunk1 := bitWrite s.cardChunk1 i 0 }
    else
      { s with cardChunk1 := bitWrite s.cardChunk1 i (bitRead s.bitHolder1 (i + shift)) }
  let s2 :=
    if i < a then
      { s1 with cardChunk2 := bitWrite s1.cardChunk2 (i + k) (bitRead s1.bitHolder1 i) }
    else s1
  if i < b then
    { s2 with cardChunk2 := bitWrite s2.cardChunk2 i (bitRead s2.bitHolder2 i) }
  else s2

/-- The loop body of `case 37` of `getCardValues`: bit 13 of `cardChunk1` is cleared and
no bit is set to a fixed 1. -/
def cardValuesBody37 (s : State) (i : Nat) : State :=
  let s1 :=
    if i = 13 then
      { s with cardChunk1 := bitWrite s.cardChunk1 i 0 }
    else
      { s with cardChunk1 := bitWrite s.cardChunk1 i (bitRead s.bitHolder1 (i + 9)) }
  let s2 :=
    if i < 9 then
      { s1 with cardChunk2 := bitWrite s1.cardChunk2 (i + 15) (bitRead s1.bitHolder1 i) }
    else s1
  if i < 15 then
    { s2 with cardChunk2 := bitWrite s2.cardChunk2 i (bitRead s2.bitHolder2 i) }
  else s2

/-- Source: `getCardValues`.  Each case is its loop with the constants of the source;
`case 36` alone counts down from 35, all others from 19. -/
def getCardValues (s : State) : State :=
  match s.bitCount with
  | 26 => countDown (cardValuesBody 13 2 20 20 4 4) 20 s
  | 27 => countDown (cardValuesBody 13 3 19 19 5 5) 20 s
  | 28 => countDown (cardValuesBody 13 4 18 18 6 6) 20 s
  | 29 => countDown (cardValuesBody 13 5 17 17 7 7) 20 s
  | 30 => countDown (cardValuesBody 13 6 16 16 8 8) 20 s
  | 31 => countDown (cardValuesBody 13 7 15 15 9 9) 20 s
  | 32 => countDown (cardValuesBody 13 8 14 14 10 10) 20 s
  | 33 => countDown (cardValuesBody 15 11 17 17 15 15) 20 s
  | 34 => countDown (cardValuesBody 13 10 12 12 12 12) 20 s
  | 35 => countDown (cardValuesBody 13 11 11 11 13 13) 20 s
  | 36 => countDown (cardValuesBody 17 16 14 14 18 18) 36 s
  | 37 => countDown cardValuesBody37 20 s
  | _ => s

/-! ## Raw binary string -/

/-- The `for (i = 0; i < bitCount; i++)` loop of `getDataStream`.  The counter `i` is an
`unsigned char`, so `i++` is taken modulo 256; `fuel` bounds the number of loop tests and
`none` is returned when it is used up.  With `bitCount` above `MAX_BITS` the loop reads
cells outside the array, where the program reads what follows the array. -/
def dataStreamLoop : Nat → Nat → State → Option State
  | 0, _, _ => none
  | fuel + 1, i, s =>
    if i < s.bitCount then
      dataStreamLoop fuel ((i + 1) % 256)
        { s with dataStream := ((s.dataStream <<< 1) % WORD) ||| s.databits i }
    else
      some s

/-- Modelled from the spec: the Arduino `String(unsigned long, BIN)` constructor, which
is not under `src/`; it renders a 32-bit value in binary, most significant digit first,
without leading zeros and as `"0"` for zero (§4.5 left-pads that string to `bitCount`).
This is the digit loop `do { digit = value % 2; value /= 2; } while (value)` of `ultoa`,
which runs at most 32 times on a 32-bit value. -/
def ultoaBIN : Nat → Nat → List Char → List Char
  | 0, _, acc => acc
  | fuel + 1, value, acc =>
    let acc1 := (if value % 2 = 1 then '1' else '0') :: acc
    if value / 2 = 0 then acc1 else ultoaBIN fuel (value / 2) acc1

/-- The loop `while (dataStreamBIN.length() < bitCount) dataStreamBIN = "0" + dataStreamBIN`
of `getDataStream`; it runs fewer than `bitCount` times, which `fuel` covers. -/
def padLoop (bitCount : Nat) : Nat → List Char → List Char
  | 0, str => str
  | fuel + 1, str =>
    if str.length < bitCount then padLoop bitCount fuel ('0' :: str) else str

/-- Source: `getDataStream`.  The counter loop is given 257 loop tests: an 8-bit counter
that has not left the loop by then is back at a value it had before with the same exit
test, so the loop never ends and the result is `none`. -/
def getDataStream (s : State) : Option State :=
  match dataStreamLoop 257 0 s with
  | none => none
  | some s1 =>
    let s2 := { s1 with dataStreamBIN := ultoaBIN 32 s1.dataStream [] }
    some { s2 with dataStreamBIN := padLoop s2.bitCount s2.bitCount s2.dataStreamBIN }

/-! ## Main loop -/

/-- The values of one decoded frame, as the logging functions read them from the
globals. -/
structure Record where
  bitCount : Nat
  facilityCode : Nat
  cardNumber : Nat
  cardChunk1 : Nat
  cardChunk2 : Nat
  dataStreamBIN : List Char
  deriving DecidableEq, Repr

/-- The record the logging functions see in state `s`. -/
def recordOf (s : State) : Record where
  bitCount := s.bitCount
  facilityCode := s.facilityCode
  cardNumber := s.cardNumber
  cardChunk1 := s.cardChunk1
  cardChunk2 := s.cardChunk2
  dataStreamBIN := s.dataStreamBIN

/-- What one pass of `loop` hands to its collaborators: the serial console report (with
the branch `consoleLog` took), the e-mail notifier, the CSV log. -/
inductive Output where
  | console (goodRead : Bool) (r : Record) : Output
  | email (r : Record) : Output
  | csv (r : Record) : Output
  deriving DecidableEq, Repr

/-- The record an output carries. -/
def Output.record : Output → Record
  | Output.console _ r => r
  | Output.email r => r
  | Output.csv r => r

/-- Source: `consoleLog`; it takes the card-read branch when `facilityCode > 0` and the
bad-read branch otherwise. -/
def consoleLog (s : State) : Output :=
  Output.console (decide (s.facilityCode > 0)) (recordOf s)

/-- The cleanup at the end of a decoding pass of `loop`. -/
def cleanup (s : State) : State :=
  { s with
    bitCount := 0, facilityCode := 0, cardNumber := 0, bitHolder1 := 0, bitHolder2 := 0,
    cardChunk1 := 0, cardChunk2 := 0, dataStream := 0, dataStreamBIN := [],
    databits := fun i => if i < MAX_BITS then 0 else s.databits i }

/-- The countdown at the head of `loop`:
`if (!flagDone) { if (--weigand_counter == 0) flagDone = 1; }`. -/
def countdown (s : State) : State :=
  if s.flagDone = 0 then
    let s1 := { s with weigand_counter := (s.weigand_counter + (WORD - 1)) % WORD }
    if s1.weigand_counter = 0 then { s1 with flagDone := 1 } else s1
  else s

/-- The reporting calls of `loop` on a decoded frame: `consoleLog()`, then
`sendCardsEmail()` under `if (facilityCode > 0 && cardNumber > 0)` and
`if (enable_email)`, then `writeCSVLog()`. -/
def report (enable_email : Bool) (s : State) : List Output :=
  [consoleLog s] ++
  (if s.facilityCode > 0 ∧ s.cardNumber > 0 then
    (if enable_email then [Output.email (recordOf s)] else [])
   else []) ++
  [Output.csv (recordOf s)]

/-- The body of `if (bitCount > 0 && flagDone)` in `loop`: decode, report, clean up. -/
def processFrame (enable_email : Bool) (s : State) : Option (State × List Output) :=
  match getDataStream s with
  | none => none
  | some s1 =>
    let s2 := getCardValues s1
    let s3 := getFacilityCodeCardNumber s2
    some (cleanup s3, report enable_email s3)

/-- Source: one pass of `loop`, up to the call of `websockets.loop()`. -/
def loop (enable_email : Bool) (s : State) : Option (State × List Output) :=
  let s1 := countdown s
  if s1.bitCount > 0 ∧ s1.flagDone ≠ 0 then processFrame enable_email s1
  else some (s1, [])

/-- Consecutive passes of `loop` with no event between them, with all their output. -/
def passes (enable_email : Bool) : Nat → State → Option (State × List Output)
  | 0, s => some (s, [])
  | n + 1, s =>
    match loop enable_email s with
    | none => none
    | some (s1, out1) =>
      match passes enable_email n s1 with
      | none => none
      | some (s2, out2) => some (s2, out1 ++ out2)

/-- A frame cycle: the events of a frame, then `WEIGAND_WAIT_TIME` passes of `loop`. -/
def frameCycle (enable_email : Bool) (s : State) (es : List Event) :
    Option (State × List Output) :=
  passes enable_email WEIGAND_WAIT_TIME (capture s es)

/-! ## Reference values -/

/-- The most-significant-bit-first value of the `len` bits `bits lo, bits (lo+1), ...`:
the first bit has weight `2^(len-1)`, the last one weight `1`. -/
def msbValue (bits : Nat → Nat) (lo : Nat) : Nat → Nat
  | 0 => 0
  | len + 1 => bits lo * 2 ^ len + msbValue bits (lo + 1) len

/-- The rows `(length, (facility range), (card range))` of the table of §4.3 of the
specification, the ranges being half-open intervals of bit indices. -/
def formatTable : List (Nat × (Nat × Nat) × (Nat × Nat)) :=
  [(26, (1, 9), (9, 25)), (27, (1, 13), (14, 27)), (29, (1, 13), (14, 29)),
   (33, (1, 8), (8, 32)), (34, (1, 17), (17, 33)), (35, (2, 14), (14, 34)),
   (37, (1, 17), (17, 36))]

/-- The bit at index `i` of a sequence of events (`0` beyond its end). -/
def frameBit : List Event → Nat → Nat
  | [], _ => 0
  | e :: _, 0 => e.bit
  | _ :: es, i + 1 => frameBit es i

/-- The most-significant-bit-first value of a whole frame. -/
def frameValue (es : List Event) : Nat :=
  msbValue (frameBit es) 0 es.length

/-- The 26-bit example frame of §8 of the specification, index 0 first. -/
def exampleBits : List Nat :=
  [0,0,0,0,0,0,0,1,1,0,0,0,0,0,0,1,0,0,1,1,1,0,1,0,1,0]

/-- The events that transmit a list of bits: a nonzero entry is a `ONE` event. -/
def eventsOf (bits : List Nat) : List Event :=
  bits.map (fun b => if b = 0 then Event.ZERO else Event.ONE)

/-- The example frame as a sequence of edge events. -/
def exampleFrame : List Event := eventsOf exampleBits

/-! ## Frames held by a state -/

/-- Two states hold the same frame: they agree on `bitCount`, on the cells of the array
`databits`, on both holders, both chunks, both decoded fields, `dataStream` and
`dataStreamBIN`.  The timer (`flagDone`, `weigand_counter`) is not part of the frame. -/
def SameFrame (s t : State) : Prop :=
  s.bitCount = t.bitCount ∧ (∀ i, i < MAX_BITS → s.databits i = t.databits i) ∧
  s.facilityCode = t.facilityCode ∧ s.cardNumber = t.cardNumber ∧
  s.dataStream = t.dataStream ∧ s.dataStreamBIN = t.dataStreamBIN ∧
  s.bitHolder1 = t.bitHolder1 ∧ s.bitHolder2 = t.bitHolder2 ∧
  s.cardChunk1 = t.cardChunk1 ∧ s.cardChunk2 = t.cardChunk2

/-! ## Reachable states -/

/-- The states the device reaches from a state satisfying `Init`, by edge events (served
in a state satisfying `Guard`) and by passes of `loop` that return. -/
inductive Reach (e : Bool) (Init Guard : State → Prop) : State → Prop
  | init (s : State) : Init s → Reach e Init Guard s
  | event (s : State) (ev : Event) :
      Reach e Init Guard s → Guard s → Reach e Init Guard (handle s ev)
  | pass (s st : State) (out : List Output) :
      Reach e Init Guard s → loop e s = some (st, out) → Reach e Init Guard st

/-- Fewer than `MAX_BITS` events of the current frame have been served: one more event
keeps the frame within `MAX_BITS` events. -/
def RoomInFrame (s : State) : Prop := s.bitCount < MAX_BITS

/-- The timer as `setup` leaves it: `flagDone` has its initial value 0 and
`weigand_counter = WEIGAND_WAIT_TIME`. -/
def TimerArmed (s : State) : Prop :=
  s.flagDone = 0 ∧ s.weigand_counter = WEIGAND_WAIT_TIME

/-! ## The cleanup, statement by statement -/

/-- The statements of the cleanup of `loop` in source order; the last entry is the
`for` loop that clears `databits[0 .. MAX_BITS-1]`. -/
def cleanupSteps : List (State → State) :=
  [fun s => { s with bitCount := 0 },
   fun s => { s with facilityCode := 0 },
   fun s => { s with cardNumber := 0 },
   fun s => { s with bitHolder1 := 0 },
   fun s => { s with bitHolder2 := 0 },
   fun s => { s with cardChunk1 := 0 },
   fun s => { s with cardChunk2 := 0 },
   fun s => { s with dataStream := 0 },
   fun s => { s with dataStreamBIN := [] },
   fun s => { s with databits := fun i => if i < MAX_BITS then 0 else s.databits i }]

/-- Statements run one after the other. -/
def runSteps (steps : List (State → State)) (s : State) : State :=
  steps.foldl (fun st f => f st) s

/-- The cleanup of `loop` with one edge event served after its first `k` statements.
Nothing in `loop` masks the interrupts, so a handler may run between any two
statements. -/
def cleanupInterrupted (k : Nat) (ev : Event) (s : State) : State :=
  runSteps (cleanupSteps.drop k) (handle (runSteps (cleanupSteps.take k) s) ev)

/-! ## Bit indices used by the chunk encoder -/

/-- The bit indices that one run of the loop body of the cases 26 to 36 of
`getCardValues` passes to `bitRead` and `bitWrite`, in the order of evaluation. -/
def cardValuesBodyIndices (hi lo shift a k b : Nat) (i : Nat) : List Nat :=
  (if i = hi ∨ i = lo then [i] else if i > lo then [i] else [i + shift, i]) ++
  (if i < a then [i, i + k] else []) ++
  (if i < b then [i, i] else [])

/-- The bit indices that one run of the loop body of `case 37` passes to `bitRead` and
`bitWrite`. -/
def cardValuesBody37Indices (i : Nat) : List Nat :=
  (if i = 13 then [i] else [i + 9, i]) ++
  (if i < 9 then [i, i + 15] else []) ++
  (if i < 15 then [i, i] else [])

/-- The indices collected over the loop `for (int i = top; i >= 0; i--)`, entered with
`n = top + 1`. -/
def countDownIndices (body : Nat → List Nat) : Nat → List Nat
  | 0 => []
  | n + 1 => body n ++ countDownIndices body n

/-- Every bit index that `getCardValues` passes to `bitRead` or `bitWrite` for a given
`bitCount`, with the loops and constants of `getCardValues`. -/
def getCardValuesIndices (bitCount : Nat) : List Nat :=
  match bitCount with
  | 26 => countDownIndices (cardValuesBodyIndices 13 2 20 20 4 4) 20
  | 27 => countDownIndices (cardValuesBodyIndices 13 3 19 19 5 5) 20
  | 28 => countDownIndices (cardValuesBodyIndices 13 4 18 18 6 6) 20
  | 29 => countDownIndices (cardValuesBodyIndices 13 5 17 17 7 7) 20
  | 30 => countDownIndices (cardValuesBodyIndices 13 6 16 16 8 8) 20
  | 31 => countDownIndices (cardValuesBodyIndices 13 7 15 15 9 9) 20
  | 32 => countDownIndices (cardValuesBodyIndices 13 8 14 14 10 10) 20
  | 33 => countDownIndices (cardValuesBodyIndices 15 11 17 17 15 15) 20
  | 34 => countDownIndices (cardValuesBodyIndices 13 10 12 12 12 12) 20
  | 35 => countDownIndices (cardValuesBodyIndices 13 11 11 11 13 13) 20
  | 36 => countDownIndices (cardValuesBodyIndices 17 16 14 14 18 18) 36
  | 37 => countDownIndices cardValuesBody37Indices 20
  | _ => []

/-! ## Hexadecimal output -/

/-- Modelled from the spec: the digit of `Print::printNumber` of the Arduino core, which
is not under `src/`: `c < 10 ? c + '0' : c + 'A' - 10`. -/
def hexDigit (c : Nat) : Char :=
  if c < 10 then Char.ofNat (c + 48) else Char.ofNat (c + 55)

/-- Modelled from the spec: `Print::print(value, HEX)` of the Arduino core, which is not
under `src/`; it renders a number in base 16, most significant digit first, without
leading zeros and as `"0"` for zero.  This is the digit loop
`do { c = n % 16; n /= 16; *--str = digit(c); } while (n)`, which `fuel` bounds. -/
def printHEX : Nat → Nat → List Char → List Char
  | 0, _, acc => acc
  | fuel + 1, n, acc =>
    let acc1 := hexDigit (n % 16) :: acc
    if n / 16 = 0 then acc1 else printHEX fuel (n / 16) acc1

/-- The hex value that `writeCSVLog` and `consoleLog` print: `print(cardChunk1, HEX)`
followed at once by `print(cardChunk2, HEX)`, both 32-bit values (8 digits at most). -/
def hexValue (s : State) : List Char :=
  printHEX 8 s.cardChunk1 [] ++ printHEX 8 s.cardChunk2 []

/-! ## The counter of `getDataStream`, a frame with a facility code only -/

/-- The `for (i = 0; i < bitCount; i++)` loop of `getDataStream` with its counter made
visible.  Besides the state, the result carries the value of the 8-bit counter `i` at the
exit test that failed, the number of runs of the loop body, and whether some `i++` wrapped
from 255 to 0.  As in `dataStreamLoop`, `fuel` bounds the number of loop tests. -/
def dataStreamLoopTrace : Nat → Nat → Nat → Bool → State → Option (State × Nat × Nat × Bool)
  | 0, _, _, _, _ => none
  | fuel + 1, i, runs, wrapped, s =>
    if i < s.bitCount then
      dataStreamLoopTrace fuel ((i + 1) % 256) (runs + 1) (wrapped || decide (256 ≤ i + 1))
        { s with dataStream := ((s.dataStream <<< 1) % WORD) ||| s.databits i }
    else
      some (s, i, runs, wrapped)

/-- A 26-bit frame whose facility bits `1..8` hold 1 and whose card bits `9..24` hold 0,
index 0 first. -/
def facilityOnlyBits : List Nat :=
  [0,0,0,0,0,0,0,0,1,0,0,0,0,0,0,0,0,0,0,0,0,0,0,0,0,0]

/-- The frame `facilityOnlyBits` as a sequence of edge events. -/
def facilityOnlyFrame : List Event := eventsOf facilityOnlyBits

/-! ## Arithmetic of bits -/

theorem even_or_bit (y b : Nat) (hb : b ≤ 1) : (2 * y) ||| b = 2 * y + b := by
  have h := Nat.mul_add_lt_is_or (i := 1) (b := b) (by omega) y
  rw [pow_one] at h
  exact h.symm

theorem shiftIn_mod (x b : Nat) (hb : b ≤ 1) :
    (((x % WORD) <<< 1) % WORD) ||| b = (x * 2 + b) % WORD := by
  have h1 : ((x % WORD) <<< 1) % WORD = 2 * (x % 2147483648) := by
    rw [Nat.shiftLeft_eq]; unfold WORD; omega
  rw [h1, even_or_bit _ _ hb]; unfold WORD; omega

theorem shiftIn_mod_zero (x : Nat) :
    ((x % WORD) <<< 1) % WORD = (x * 2 + 0) % WORD := by
  rw [Nat.shiftLeft_eq]; unfold WORD; omega

theorem event_bit_le (e : Event) : e.bit ≤ 1 := by
  cases e <;> simp [Event.bit]

theorem frameBit_le (es : List Event) (i : Nat) : frameBit es i ≤ 1 := by
  induction es generalizing i with
  | nil => simp [frameBit]
  | cons e es ih =>
    cases i with
    | zero => simpa [frameBit] using event_bit_le e
    | succ i => simpa [frameBit] using ih i

theorem frameBit_of_le (es : List Event) (i : Nat) (h : es.length ≤ i) : frameBit es i = 0 := by
  induction es generalizing i with
  | nil => simp [frameBit]
  | cons e es ih =>
    cases i with
    | zero => simp at h
    | succ i => simp only [frameBit]; exact ih i (by simpa using h)

theorem frameBit_eq_get (es : List Event) (i : Nat) (h : i < es.length) :
    frameBit es i = (es.get ⟨i, h⟩).bit := by
  induction es generalizing i with
  | nil => simp at h
  | cons e es ih =>
    cases i with
    | zero => simp [frameBit]
    | succ i => simp only [frameBit]; exact ih i (by simpa using h)

theorem frameBit_append_left (es fs : List Event) (i : Nat) (h : i < es.length) :
    frameBit (es ++ fs) i = frameBit es i := by
  induction es generalizing i with
  | nil => simp at h
  | cons e es ih =>
    cases i with
    | zero => simp [frameBit]
    | succ i => simp only [List.cons_append, frameBit]; exact ih i (by simpa using h)

theorem frameBit_append_right (es fs : List Event) (i : Nat) :
    frameBit (es ++ fs) (es.length + i) = frameBit fs i := by
  induction es with
  | nil => simp
  | cons e es ih =>
    have : (e :: es).length + i = (es.length + i) + 1 := by simp; omega
    rw [this]; simp only [List.cons_append, frameBit]; exact ih

theorem msbValue_congr (f g : Nat → Nat) (lo len : Nat)
    (h : ∀ i, lo ≤ i → i < lo + len → f i = g i) : msbValue f lo len = msbValue g lo len := by
  induction len generalizing lo with
  | zero => rfl
  | succ n ih =>
    simp only [msbValue]
    rw [h lo (le_refl _) (by omega), ih (lo + 1) (fun i h1 h2 => h i (by omega) (by omega))]

theorem msbValue_succ_last (f : Nat → Nat) (lo len : Nat) :
    msbValue f lo (len + 1) = msbValue f lo len * 2 + f (lo + len) := by
  induction len generalizing lo with
  | zero => simp [msbValue]
  | succ n ih =>
    rw [msbValue, ih (lo + 1), msbValue]
    have : lo + 1 + n = lo + (n + 1) := by omega
    rw [this, pow_succ]; ring

theorem msbValue_lt (f : Nat → Nat) (lo len : Nat) (h : ∀ i, lo ≤ i → i < lo + len → f i ≤ 1) :
    msbValue f lo len < 2 ^ len := by
  induction len generalizing lo with
  | zero => simp [msbValue]
  | succ n ih =>
    rw [msbValue]
    have h1 := h lo (le_refl _) (by omega)
    have h2 := ih (lo + 1) (fun i a b => h i (by omega) (by omega))
    have h3 : f lo * 2 ^ n ≤ 1 * 2 ^ n := Nat.mul_le_mul_right _ h1
    rw [pow_succ]; omega

theorem msbValue_add (f : Nat → Nat) (lo m n : Nat) :
    msbValue f lo (m + n) = msbValue f lo m * 2 ^ n + msbValue f (lo + m) n := by
  induction n with
  | zero => simp [msbValue]
  | succ n ih =>
    rw [← Nat.add_assoc, msbValue_succ_last, ih, msbValue_succ_last, pow_succ]
    have : lo + (m + n) = lo + m + n := by omega
    rw [this]; ring

/-! ## Capture -/

theorem ISR_INT0_bitCount (s : State) : (ISR_INT0 s).bitCount = (s.bitCount + 1) % WORD := by
  simp only [ISR_INT0]; split <;> rfl

theorem ISR_INT1_bitCount (s : State) : (ISR_INT1 s).bitCount = (s.bitCount + 1) % WORD := by
  simp only [ISR_INT1]; split <;> rfl

theorem ISR_INT0_databits (s : State) : (ISR_INT0 s).databits = s.databits := by
  simp only [ISR_INT0]; split <;> rfl

theorem ISR_INT1_databits (s : State) :
    (ISR_INT1 s).databits = Function.update s.databits s.bitCount 1 := by
  simp only [ISR_INT1]; split <;> rfl

theorem ISR_INT0_bitHolder1 (s : State) : (ISR_INT0 s).bitHolder1 =
    if (s.bitCount + 1) % WORD < 23 then (s.bitHolder1 <<< 1) % WORD else s.bitHolder1 := by
  simp only [ISR_INT0]; split <;> rfl

theorem ISR_INT1_bitHolder1 (s : State) : (ISR_INT1 s).bitHolder1 =
    if (s.bitCount + 1) % WORD < 23 then ((s.bitHolder1 <<< 1) % WORD) ||| 1
    else s.bitHolder1 := by
  simp only [ISR_INT1]; split <;> rfl

theorem ISR_INT0_bitHolder2 (s : State) : (ISR_INT0 s).bitHolder2 =
    if (s.bitCount + 1) % WORD < 23 then s.bitHolder2 else (s.bitHolder2 <<< 1) % WORD := by
  simp only [ISR_INT0]; split <;> rfl

theorem ISR_INT1_bitHolder2 (s : State) : (ISR_INT1 s).bitHolder2 =
    if (s.bitCount + 1) % WORD < 23 then s.bitHolder2
    else ((s.bitHolder2 <<< 1) % WORD) ||| 1 := by
  simp only [ISR_INT1]; split <;> rfl

theorem handle_timer (s : State) (e : Event) :
    (handle s e).flagDone = 0 ∧ (handle s e).weigand_counter = WEIGAND_WAIT_TIME := by
  cases e
  · simp only [handle, ISR_INT0]; split <;> simp
  · simp only [handle, ISR_INT1]; split <;> simp

/-- The handlers leave the decode globals alone. -/
theorem handle_frame (s : State) (e : Event) :
    (handle s e).facilityCode = s.facilityCode ∧ (handle s e).cardNumber = s.cardNumber ∧
    (handle s e).dataStream = s.dataStream ∧ (handle s e).dataStreamBIN = s.dataStreamBIN ∧
    (handle s e).cardChunk1 = s.cardChunk1 ∧ (handle s e).cardChunk2 = s.cardChunk2 := by
  cases e
  · simp only [handle, ISR_INT0]; split <;> exact ⟨rfl, rfl, rfl, rfl, rfl, rfl⟩
  · simp only [handle, ISR_INT1]; split <;> exact ⟨rfl, rfl, rfl, rfl, rfl, rfl⟩

theorem capture_snoc (s : State) (es : List Event) (e : Event) :
    capture s (es ++ [e]) = handle (capture s es) e := by
  simp [capture, List.foldl_append]

theorem capture_frame (s : State) (es : List Event) :
    (capture s es).facilityCode = s.facilityCode ∧ (capture s es).cardNumber = s.cardNumber ∧
    (capture s es).dataStream = s.dataStream ∧ (capture s es).dataStreamBIN = s.dataStreamBIN ∧
    (capture s es).cardChunk1 = s.cardChunk1 ∧ (capture s es).cardChunk2 = s.cardChunk2 := by
  induction es using List.reverseRecOn with
  | nil => simp [capture]
  | append_singleton es e ih =>
    rw [capture_snoc]
    obtain ⟨a, b, c, d, f, g⟩ := handle_frame (capture s es) e
    obtain ⟨a1, b1, c1, d1, f1, g1⟩ := ih
    exact ⟨a.trans a1, b.trans b1, c.trans c1, d.trans d1, f.trans f1, g.trans g1⟩

theorem capture_timer (s : State) (es : List Event) (h : es ≠ []) :
    (capture s es).flagDone = 0 ∧ (capture s es).weigand_counter = WEIGAND_WAIT_TIME := by
  induction es using List.reverseRecOn with
  | nil => exact absurd rfl h
  | append_singleton es e _ => rw [capture_snoc]; exact handle_timer _ _

theorem frameBit_snoc_self (es : List Event) (e : Event) :
    frameBit (es ++ [e]) es.length = e.bit := by
  have := frameBit_append_right es [e] 0
  simpa [frameBit] using this

theorem msbValue_frameBit_snoc (es : List Event) (e : Event) (lo len : Nat)
    (h : lo + len ≤ es.length) :
    msbValue (frameBit (es ++ [e])) lo len = msbValue (frameBit es) lo len :=
  msbValue_congr _ _ lo len (fun i _ h2 => frameBit_append_left es [e] i (by omega))

/-- What a sequence of fewer than `2^32` events leaves in the capture globals, from a
state with `bitCount = 0` and empty holders. -/
theorem capture_spec (s0 : State) (es : List Event) (hlen : es.length < WORD)
    (hb : s0.bitCount = 0) (h1 : s0.bitHolder1 = 0) (h2 : s0.bitHolder2 = 0) :
    (capture s0 es).bitCount = es.length ∧
    (∀ i, (capture s0 es).databits i =
      if i < es.length ∧ frameBit es i = 1 then 1 else s0.databits i) ∧
    (capture s0 es).bitHolder1 = msbValue (frameBit es) 0 (min es.length 22) % WORD ∧
    (capture s0 es).bitHolder2 = msbValue (frameBit es) 22 (es.length - 22) % WORD := by
  induction es using List.reverseRecOn with
  | nil => simp [capture, hb, h1, h2, msbValue]
  | append_singleton es e ih =>
    have hl : es.length + 1 < WORD := by simpa using hlen
    obtain ⟨ihb, ihd, ih1, ih2⟩ := ih (by omega)
    rw [capture_snoc]
    have hmod : (es.length + 1) % WORD = es.length + 1 := Nat.mod_eq_of_lt hl
    have hbit : frameBit (es ++ [e]) es.length = e.bit := frameBit_snoc_self es e
    have hlen1 : (es ++ [e]).length = es.length + 1 := by simp
    refine ⟨?_, ?_, ?_, ?_⟩
    · cases e
      · rw [handle, ISR_INT0_bitCount, ihb, hmod, hlen1]
      · rw [handle, ISR_INT1_bitCount, ihb, hmod, hlen1]
    · intro i
      rw [hlen1]
      rcases Nat.lt_trichotomy i es.length with hi | hi | hi
      · have hf := frameBit_append_left es [e] i hi
        have hne : i ≠ es.length := by omega
        have hlt : i < es.length + 1 := by omega
        cases e
        · rw [handle, ISR_INT0_databits, ihd, hf]; simp [hi, hlt]
        · rw [handle, ISR_INT1_databits, ihb, Function.update_noteq hne, ihd, hf]
          simp [hi, hlt]
      · subst hi
        cases e
        · rw [handle, ISR_INT0_databits, ihd, hbit]; simp [Event.bit]
        · rw [handle, ISR_INT1_databits, ihb, Function.update_same, hbit]; simp [Event.bit]
      · have h3 : ¬ i < es.length := by omega
        have h4 : ¬ i < es.length + 1 := by omega
        have h5 : i ≠ es.length := by omega
        cases e
        · rw [handle, ISR_INT0_databits, ihd]; simp [h3, h4]
        · rw [handle, ISR_INT1_databits, ihb, Function.update_noteq h5, ihd]; simp [h3, h4]
    · by_cases hc : es.length + 1 < 23
      · have hm : min (es ++ [e]).length 22 = es.length + 1 := by rw [hlen1]; omega
        have hm0 : min es.length 22 = es.length := by omega
        rw [hm, msbValue_succ_last, msbValue_frameBit_snoc es e 0 es.length (by omega)]
        rw [hm0] at ih1
        rw [Nat.zero_add, hbit]
        cases e
        · rw [handle, ISR_INT0_bitHolder1, ihb, hmod, if_pos hc, ih1]
          exact shiftIn_mod_zero _
        · rw [handle, ISR_INT1_bitHolder1, ihb, hmod, if_pos hc, ih1]
          exact shiftIn_mod _ 1 (le_refl _)
      · have hm : min (es ++ [e]).length 22 = 22 := by rw [hlen1]; omega
        have hm0 : min es.length 22 = 22 := by omega
        rw [hm, msbValue_frameBit_snoc es e 0 22 (by omega)]
        rw [hm0] at ih1
        cases e
        · rw [handle, ISR_INT0_bitHolder1, ihb, hmod, if_neg hc, ih1]
        · rw [handle, ISR_INT1_bitHolder1, ihb, hmod, if_neg hc, ih1]
    · by_cases hc : es.length + 1 < 23
      · have hm : (es ++ [e]).length - 22 = 0 := by rw [hlen1]; omega
        have hm0 : es.length - 22 = 0 := by omega
        rw [hm]
        rw [hm0] at ih2
        cases e
        · rw [handle, ISR_INT0_bitHolder2, ihb, hmod, if_pos hc, ih2]; rfl
        · rw [handle, ISR_INT1_bitHolder2, ihb, hmod, if_pos hc, ih2]; rfl
      · have hm : (es ++ [e]).length - 22 = (es.length - 22) + 1 := by rw [hlen1]; omega
        rw [hm, msbValue_succ_last, msbValue_frameBit_snoc es e 22 (es.length - 22) (by omega)]
        have hidx : 22 + (es.length - 22) = es.length := by omega
        rw [hidx, hbit]
        cases e
        · rw [handle, ISR_INT0_bitHolder2, ihb, hmod, if_neg hc, ih2]
          exact shiftIn_mod_zero _
        · rw [handle, ISR_INT1_bitHolder2, ihb, hmod, if_neg hc, ih2]
          exact shiftIn_mod _ 1 (le_refl _)

/-! ## Format decoder: the shift-in loop -/

theorem initState_isReset : IsReset initState := by
  simp [IsReset, initState]

theorem foldl_shiftIn (db : Nat → Nat) (n lo x : Nat)
    (h : ∀ i, lo ≤ i → i < lo + n → db i ≤ 1) :
    (List.range' lo n).foldl (fun a i => ((a <<< 1) % WORD) ||| db i) (x % WORD) =
      (x * 2 ^ n + msbValue db lo n) % WORD := by
  induction n generalizing lo x with
  | zero => simp [msbValue]
  | succ n ih =>
    rw [List.range'_succ, List.foldl_cons, shiftIn_mod x (db lo) (h lo (le_refl _) (by omega)),
      ih (lo + 1) (x * 2 + db lo) (fun i a b => h i (by omega) (by omega)), msbValue]
    congr 1
    rw [pow_succ]; ring

theorem shiftInBits_zero (db : Nat → Nat) (lo hi : Nat)
    (h : ∀ i, lo ≤ i → i < hi → db i ≤ 1) (hw : hi - lo ≤ 32) :
    shiftInBits db lo hi 0 = msbValue db lo (hi - lo) := by
  have h1 := foldl_shiftIn db (hi - lo) lo 0 (fun i a b => h i a (by omega))
  have h2 : msbValue db lo (hi - lo) < 2 ^ (hi - lo) :=
    msbValue_lt db lo (hi - lo) (fun i a b => h i a (by omega))
  have h3 : 2 ^ (hi - lo) ≤ 2 ^ 32 := Nat.pow_le_pow_right (by decide) hw
  rw [shiftInBits]
  simp only [Nat.zero_mod, Nat.zero_mul, Nat.zero_add] at h1
  rw [h1]
  apply Nat.mod_eq_of_lt
  unfold WORD; omega

/-- A frame of at most `MAX_BITS` bits captured from the reset state: `bitCount` is its
length and the cells of `databits` hold its bits, those beyond its end holding 0. -/
theorem capture_reset (s0 : State) (es : List Event) (h0 : IsReset s0)
    (hn : es.length ≤ MAX_BITS) :
    (capture s0 es).bitCount = es.length ∧
    ∀ i, i < MAX_BITS → (capture s0 es).databits i = frameBit es i := by
  obtain ⟨hb, hd, _, _, h1, h2, _⟩ := h0
  have hlen : es.length < WORD := by unfold MAX_BITS at hn; unfold WORD; omega
  obtain ⟨c1, c2, _, _⟩ := capture_spec s0 es hlen hb h1 h2
  refine ⟨c1, fun i hi => ?_⟩
  rw [c2 i, hd i hi]
  have := frameBit_le es i
  by_cases hlt : i < es.length
  · by_cases h : frameBit es i = 1
    · simp [hlt, h]
    · have h0 : frameBit es i = 0 := by omega
      simp [h0]
  · rw [frameBit_of_le es i (by omega)]
    simp [hlt]

/-! ## Chunk encoder: single bits and the per-length loops -/

theorem WORD_eq : WORD = 2 ^ 32 := by decide

theorem testBit_of_lt_WORD (v j : Nat) (hv : v < WORD) (hj : 32 ≤ j) : v.testBit j = false := by
  apply Nat.testBit_lt_two_pow
  have : 2 ^ 32 ≤ 2 ^ j := Nat.pow_le_pow_right (by decide) hj
  rw [WORD_eq] at hv; omega

theorem bitRead_ne_zero (v b : Nat) : decide (bitRead v b ≠ 0) = v.testBit b := by
  simp only [bitRead, Nat.testBit, Nat.and_comm 1, bne_iff_ne, ne_eq, decide_not]
  cases h : ((v >>> b &&& 1) == 0) <;> simp_all

theorem bitWrite_lt (v b x : Nat) (hv : v < WORD) : bitWrite v b x < WORD := by
  unfold bitWrite
  split
  · rw [WORD_eq] at *
    exact Nat.or_lt_two_pow hv (Nat.mod_lt _ (by decide))
  · exact Nat.lt_of_le_of_lt Nat.and_le_left hv

theorem testBit_bitWrite (v b x j : Nat) (hv : v < WORD) :
    (bitWrite v b x).testBit j =
      if j = b ∧ b < 32 then decide (x ≠ 0) else v.testBit j := by
  have hw : WORD - 1 = 2 ^ 32 - 1 := by rw [WORD_eq]
  unfold bitWrite
  by_cases hx : x ≠ 0
  · rw [if_pos hx, Nat.testBit_or, Nat.one_shiftLeft, WORD_eq, Nat.testBit_mod_two_pow,
      Nat.testBit_two_pow]
    by_cases h1 : j = b ∧ b < 32
    · obtain ⟨rfl, h2⟩ := h1
      simp [h2, hx]
    · rw [if_neg h1]
      by_cases h3 : b = j
      · subst h3
        have : ¬ b < 32 := fun h => h1 ⟨rfl, h⟩
        simp [this]
      · simp [h3]
  · rw [if_neg hx, Nat.testBit_and, Nat.testBit_xor, hw, Nat.testBit_two_pow_sub_one,
      Nat.one_shiftLeft, WORD_eq, Nat.testBit_mod_two_pow, Nat.testBit_two_pow]
    by_cases h1 : j = b ∧ b < 32
    · obtain ⟨rfl, h2⟩ := h1
      simp [h2, hx]
    · rw [if_neg h1]
      by_cases h32 : j < 32
      · have h3 : b ≠ j := fun h => h1 ⟨h.symm, h ▸ h32⟩
        simp [h32, h3]
      · have := testBit_of_lt_WORD v j hv (by omega)
        simp [this]

theorem cardValuesBody_cardChunk1 (hi lo shift a k b : Nat) (s : State) (i : Nat) :
    (cardValuesBody hi lo shift a k b s i).cardChunk1 =
      bitWrite s.cardChunk1 i
        (if i = hi ∨ i = lo then 1 else if i > lo then 0
         else bitRead s.bitHolder1 (i + shift)) := by
  simp only [cardValuesBody]
  split_ifs <;> rfl

theorem cardValuesBody_cardChunk2 (hi lo shift a k b : Nat) (s : State) (i : Nat) :
    (cardValuesBody hi lo shift a k b s i).cardChunk2 =
      if i < b then
        bitWrite (if i < a then bitWrite s.cardChunk2 (i + k) (bitRead s.bitHolder1 i)
                  else s.cardChunk2) i (bitRead s.bitHolder2 i)
      else if i < a then bitWrite s.cardChunk2 (i + k) (bitRead s.bitHolder1 i)
      else s.cardChunk2 := by
  simp only [cardValuesBody]
  split_ifs <;> rfl

/-- The loop body of the cases 26 to 36 writes the two chunks only. -/
theorem cardValuesBody_frame (hi lo shift a k b : Nat) (s : State) (i : Nat) :
    (cardValuesBody hi lo shift a k b s i).bitHolder1 = s.bitHolder1 ∧
    (cardValuesBody hi lo shift a k b s i).bitHolder2 = s.bitHolder2 ∧
    (cardValuesBody hi lo shift a k b s i).bitCount = s.bitCount ∧
    (cardValuesBody hi lo shift a k b s i).databits = s.databits ∧
    (cardValuesBody hi lo shift a k b s i).facilityCode = s.facilityCode ∧
    (cardValuesBody hi lo shift a k b s i).cardNumber = s.cardNumber ∧
    (cardValuesBody hi lo shift a k b s i).dataStream = s.dataStream ∧
    (cardValuesBody hi lo shift a k b s i).dataStreamBIN = s.dataStreamBIN ∧
    (cardValuesBody hi lo shift a k b s i).flagDone = s.flagDone ∧
    (cardValuesBody hi lo shift a k b s i).weigand_counter = s.weigand_counter := by
  simp only [cardValuesBody]
  split_ifs <;> simp

/-- A predicate on states that a loop body maintains is maintained by the loop. -/
theorem countDown_induct (body : State → Nat → State) (P : State → Prop)
    (h : ∀ s i, P s → P (body s i)) (n : Nat) (s : State) (hs : P s) :
    P (countDown body n s) := by
  induction n generalizing s with
  | zero => exact hs
  | succ n ih => exact ih _ (h s n hs)

theorem sentinel_value (hi lo shift h1 i : Nat) :
    decide ((if i = hi ∨ i = lo then 1 else if i > lo then 0
        else bitRead h1 (i + shift)) ≠ 0) =
      (if i = hi ∨ i = lo then true else if i > lo then false
        else h1.testBit (i + shift)) := by
  split_ifs
  · simp
  · simp
  · exact bitRead_ne_zero _ _

/-- Bit `j` of `cardChunk1` after the loop of the cases 26 to 36, run from `i = n-1` down
to `0`: the sentinels at `hi` and `lo`, zeros above `lo`, bits of `bitHolder1` below. -/
theorem countDown_cardChunk1 (hi lo shift a k b : Nat) (n : Nat) (s : State)
    (hs : s.cardChunk1 < WORD) (j : Nat) :
    ((countDown (cardValuesBody hi lo shift a k b) n s).cardChunk1).testBit j =
      if j < n ∧ j < 32 then
        (if j = hi ∨ j = lo then true else if j > lo then false
         else s.bitHolder1.testBit (j + shift))
      else s.cardChunk1.testBit j := by
  induction n generalizing s with
  | zero => simp [countDown]
  | succ n ih =>
    rw [countDown, ih _ (by rw [cardValuesBody_cardChunk1]; exact bitWrite_lt _ _ _ hs)]
    rw [(cardValuesBody_frame hi lo shift a k b s n).1, cardValuesBody_cardChunk1,
      testBit_bitWrite _ _ _ _ hs, sentinel_value]
    by_cases h1 : j < n ∧ j < 32
    · have h2 : j < n + 1 ∧ j < 32 := ⟨by omega, h1.2⟩
      rw [if_pos h1, if_pos h2]
    · rw [if_neg h1]
      by_cases h2 : j = n ∧ n < 32
      · obtain ⟨rfl, h3⟩ := h2
        have h4 : j < j + 1 ∧ j < 32 := ⟨by omega, h3⟩
        rw [if_pos ⟨rfl, h3⟩, if_pos h4]
      · have h3 : ¬ (j < n + 1 ∧ j < 32) := by omega
        rw [if_neg h2, if_neg h3]

theorem cardValuesBody_cardChunk2_lt (hi lo shift a k b : Nat) (s : State) (i : Nat)
    (hs : s.cardChunk2 < WORD) : (cardValuesBody hi lo shift a k b s i).cardChunk2 < WORD := by
  rw [cardValuesBody_cardChunk2]
  split_ifs
  · exact bitWrite_lt _ _ _ (bitWrite_lt _ _ _ hs)
  · exact bitWrite_lt _ _ _ hs
  · exact bitWrite_lt _ _ _ hs
  · exact hs

theorem testBit_cardValuesBody_cardChunk2 (hi lo shift a k b : Nat) (s : State) (i j : Nat)
    (hs : s.cardChunk2 < WORD) :
    ((cardValuesBody hi lo shift a k b s i).cardChunk2).testBit j =
      if i < b ∧ j = i ∧ i < 32 then s.bitHolder2.testBit i
      else if i < a ∧ j = i + k ∧ i + k < 32 then s.bitHolder1.testBit i
      else s.cardChunk2.testBit j := by
  rw [cardValuesBody_cardChunk2]
  by_cases hb : i < b <;> by_cases ha : i < a <;>
    simp only [hb, ha, if_true, if_false, true_and, false_and]
  · rw [testBit_bitWrite _ _ _ _ (bitWrite_lt _ _ _ hs), testBit_bitWrite _ _ _ _ hs,
      bitRead_ne_zero, bitRead_ne_zero]
  · rw [testBit_bitWrite _ _ _ _ hs, bitRead_ne_zero]
  · rw [testBit_bitWrite _ _ _ _ hs, bitRead_ne_zero]

/-- Bit `j` of `cardChunk2` after the loop of the cases 26 to 36: bit `j - k` of
`bitHolder1` where `k ≤ j < k + a`, else bit `j` of `bitHolder2` where `j < b`. -/
theorem countDown_cardChunk2 (hi lo shift a k b : Nat) (hk : 1 ≤ k) (n : Nat) (s : State)
    (hs : s.cardChunk2 < WORD) (j : Nat) :
    ((countDown (cardValuesBody hi lo shift a k b) n s).cardChunk2).testBit j =
      if j < 32 ∧ k ≤ j ∧ j - k < a ∧ j - k < n then s.bitHolder1.testBit (j - k)
      else if j < 32 ∧ j < b ∧ j < n then s.bitHolder2.testBit j
      else s.cardChunk2.testBit j := by
  induction n generalizing s with
  | zero => simp [countDown]
  | succ n ih =>
    rw [countDown, ih _ (cardValuesBody_cardChunk2_lt _ _ _ _ _ _ _ _ hs)]
    rw [(cardValuesBody_frame hi lo shift a k b s n).1,
      (cardValuesBody_frame hi lo shift a k b s n).2.1,
      testBit_cardValuesBody_cardChunk2 _ _ _ _ _ _ _ _ _ hs]
    by_cases c1 : j < 32 ∧ k ≤ j ∧ j - k < a ∧ j - k < n
    · rw [if_pos c1, if_pos (by omega)]
    · rw [if_neg c1]
      by_cases c2 : j < 32 ∧ j < b ∧ j < n
      · rw [if_pos c2, if_neg (by omega), if_pos (by omega)]
      · rw [if_neg c2]
        by_cases d1 : n < b ∧ j = n ∧ n < 32
        · obtain ⟨d1a, rfl, d1c⟩ := d1
          rw [if_pos ⟨d1a, rfl, d1c⟩, if_neg (by omega), if_pos (by omega)]
        · rw [if_neg d1]
          by_cases d2 : n < a ∧ j = n + k ∧ n + k < 32
          · obtain ⟨d2a, rfl, d2c⟩ := d2
            rw [if_pos ⟨d2a, rfl, d2c⟩, if_pos (by omega)]
            congr 1; omega
          · rw [if_neg d2, if_neg (by omega), if_neg (by omega)]

theorem testBit_of_lt_two_pow (v n j : Nat) (hv : v < 2 ^ n) (hj : n ≤ j) :
    v.testBit j = false := by
  apply Nat.testBit_lt_two_pow
  have : 2 ^ n ≤ 2 ^ j := Nat.pow_le_pow_right (by decide) hj
  omega

/-- Bits of the concatenation of a high part and an `m`-bit low part. -/
theorem testBit_concat (h1 h2 m j : Nat) (hh2 : h2 < 2 ^ m) :
    (h1 * 2 ^ m + h2).testBit j = if j < m then h2.testBit j else h1.testBit (j - m) := by
  rw [Nat.mul_comm, Nat.mul_add_lt_is_or hh2, Nat.testBit_or, Nat.mul_comm, ← Nat.shiftLeft_eq,
    Nat.testBit_shiftLeft]
  by_cases h : j < m
  · have h' : ¬ j ≥ m := by omega
    simp [h, h']
  · have h' : j ≥ m := by omega
    simp [h, h', testBit_of_lt_two_pow h2 m j hh2 h']

/-- Bits of two distinct powers of two placed above a small number. -/
theorem testBit_sentinels (hi lo q j : Nat) (hlo : lo < hi) (hq : q < 2 ^ lo) :
    (2 ^ hi + 2 ^ lo + q).testBit j = (decide (j = hi) || decide (j = lo) || q.testBit j) := by
  have e1 : 2 ^ lo + q = 2 ^ lo * 1 ||| q := by
    rw [← Nat.mul_add_lt_is_or hq, Nat.mul_one]
  have h2 : 2 ^ lo + q < 2 ^ hi := by
    have : 2 ^ (lo + 1) ≤ 2 ^ hi := Nat.pow_le_pow_right (by decide) hlo
    rw [pow_succ] at this; omega
  have e2 : 2 ^ hi + (2 ^ lo + q) = 2 ^ hi * 1 ||| (2 ^ lo + q) := by
    rw [← Nat.mul_add_lt_is_or h2, Nat.mul_one]
  rw [Nat.add_assoc, e2, Nat.testBit_or, e1, Nat.testBit_or, Nat.mul_one, Nat.mul_one,
    Nat.testBit_two_pow, Nat.testBit_two_pow, Bool.or_assoc]
  congr 2 <;> simp [eq_comm]

/-- The chunk encoding of the regular lengths, `m = bitCount - 22` being the number of
bits held by `bitHolder2`: chunk 1 carries the sentinels at 13 and `m - 2` above the top
`m - 2` bits of the frame, chunk 2 carries the low 24 bits of the frame. -/
theorem regular_chunks (m : Nat) (hm : 4 ≤ m) (hm2 : m ≤ 13) (s : State)
    (hh1 : s.bitHolder1 < 2 ^ 22) (hh2 : s.bitHolder2 < 2 ^ m)
    (hc1 : s.cardChunk1 = 0) (hc2 : s.cardChunk2 = 0) :
    (countDown (cardValuesBody 13 (m - 2) (24 - m) (24 - m) m m) 20 s).cardChunk1 =
        2 ^ 13 + 2 ^ (m - 2) + (s.bitHolder1 * 2 ^ m + s.bitHolder2) / 2 ^ 24 ∧
    (countDown (cardValuesBody 13 (m - 2) (24 - m) (24 - m) m m) 20 s).cardChunk2 =
        (s.bitHolder1 * 2 ^ m + s.bitHolder2) % 2 ^ 24 := by
  have hq : (s.bitHolder1 * 2 ^ m + s.bitHolder2) / 2 ^ 24 < 2 ^ (m - 2) := by
    rw [Nat.div_lt_iff_lt_mul (by positivity), ← pow_add]
    have e : m - 2 + 24 = 22 + m := by omega
    rw [e, pow_add]
    have : (s.bitHolder1 + 1) * 2 ^ m ≤ 2 ^ 22 * 2 ^ m := Nat.mul_le_mul_right _ hh1
    rw [Nat.add_mul] at this
    omega
  constructor
  · apply Nat.eq_of_testBit_eq
    intro j
    rw [countDown_cardChunk1 _ _ _ _ _ _ _ _ (by rw [hc1]; decide), hc1,
      testBit_sentinels 13 (m - 2) _ j (by omega) hq, ← Nat.shiftRight_eq_div_pow,
      Nat.testBit_shiftRight, testBit_concat _ _ _ _ hh2,
      if_neg (show ¬ (24 + j < m) by omega)]
    by_cases c1 : j = 13
    · subst c1; simp
    · by_cases c2 : j = m - 2
      · have : j < 20 := by omega
        simp [c2, this]
        omega
      · have hz : s.bitHolder1.testBit (24 + j - m) = s.bitHolder1.testBit (j + (24 - m)) := by
          congr 1; omega
        by_cases c3 : j > m - 2
        · have := testBit_of_lt_two_pow s.bitHolder1 22 (24 + j - m) hh1 (by omega)
          simp [c1, c2, c3, this]
        · have : j < 20 ∧ j < 32 := by omega
          simp [c1, c2, c3, this, hz]
  · apply Nat.eq_of_testBit_eq
    intro j
    rw [countDown_cardChunk2 _ _ _ _ _ _ (by omega) _ _ (by rw [hc2]; decide), hc2,
      Nat.testBit_mod_two_pow, testBit_concat _ _ _ _ hh2]
    by_cases c1 : j < m
    · have a1 : ¬ (j < 32 ∧ m ≤ j ∧ j - m < 24 - m ∧ j - m < 20) := by omega
      have a2 : j < 32 ∧ j < m ∧ j < 20 := by omega
      have a3 : j < 24 := by omega
      simp [c1, a1, a2, a3]
    · by_cases c2 : j < 24
      · have a1 : j < 32 ∧ m ≤ j ∧ j - m < 24 - m ∧ j - m < 20 := by omega
        simp [c1, c2, a1]
      · have a1 : ¬ (j < 32 ∧ m ≤ j ∧ j - m < 24 - m ∧ j - m < 20) := by omega
        have a2 : ¬ (j < 32 ∧ j < m ∧ j < 20) := by omega
        simp [c2, a1, a2]

/-- The holders after a frame of 22 to 54 bits captured from the reset state: the first
22 bits in `bitHolder1`, the others in `bitHolder2`, none lost. -/
theorem capture_holders (s0 : State) (es : List Event) (h0 : IsReset s0)
    (hlo : 22 ≤ es.length) (hhi : es.length ≤ 54) :
    (capture s0 es).bitCount = es.length ∧
    (capture s0 es).bitHolder1 < 2 ^ 22 ∧
    (capture s0 es).bitHolder2 < 2 ^ (es.length - 22) ∧
    frameValue es =
      (capture s0 es).bitHolder1 * 2 ^ (es.length - 22) + (capture s0 es).bitHolder2 ∧
    (capture s0 es).cardChunk1 = 0 ∧ (capture s0 es).cardChunk2 = 0 := by
  obtain ⟨hb, _, _, _, h1, h2, hc1, hc2, _⟩ := h0
  have hlen : es.length < WORD := by unfold WORD; omega
  obtain ⟨c1, _, c3, c4⟩ := capture_spec s0 es hlen hb h1 h2
  obtain ⟨_, _, _, _, f1, f2⟩ := capture_frame s0 es
  have hmin : min es.length 22 = 22 := by omega
  have b1 : msbValue (frameBit es) 0 22 < 2 ^ 22 :=
    msbValue_lt _ _ _ (fun i _ _ => frameBit_le es i)
  have b2 : msbValue (frameBit es) 22 (es.length - 22) < 2 ^ (es.length - 22) :=
    msbValue_lt _ _ _ (fun i _ _ => frameBit_le es i)
  have b3 : 2 ^ (es.length - 22) ≤ 2 ^ 32 := Nat.pow_le_pow_right (by decide) (by omega)
  rw [hmin, Nat.mod_eq_of_lt (by unfold WORD; omega)] at c3
  rw [Nat.mod_eq_of_lt (by unfold WORD; omega)] at c4
  refine ⟨c1, by rw [c3]; exact b1, by rw [c4]; exact b2, ?_, by rw [f1, hc1], by rw [f2, hc2]⟩
  rw [c3, c4, frameValue]
  have e : es.length = 22 + (es.length - 22) := by omega
  conv_lhs => rw [e]
  rw [msbValue_add, Nat.zero_add]

/-- The counter loop of `getDataStream` on a capture of at most 255 bits: it ends and has
shifted cells `i .. bitCount-1` into `dataStream`. -/
theorem dataStreamLoop_eq (k : Nat) (fuel i : Nat) (s : State) (hk : i + k = s.bitCount)
    (hb : s.bitCount ≤ 255) (hf : k < fuel) :
    dataStreamLoop fuel i s = some
      { s with
        dataStream := List.foldl (fun a j => ((a <<< 1) % WORD) ||| s.databits j) s.dataStream
          (List.range' i k) } := by
  induction k generalizing fuel i s with
  | zero =>
    cases fuel with
    | zero => omega
    | succ fuel =>
      have : ¬ i < s.bitCount := by omega
      simp [dataStreamLoop, this]
  | succ k ih =>
    cases fuel with
    | zero => omega
    | succ fuel =>
      have h1 : i < s.bitCount := by omega
      have h2 : (i + 1) % 256 = i + 1 := by omega
      rw [dataStreamLoop, if_pos h1, h2, ih fuel (i + 1) _ (by simp; omega) (by simpa using hb)
        (by omega)]
      simp [List.range'_succ]

/-- An 8-bit counter never reaches a `bitCount` of 256 or more: the loop has no end. -/
theorem dataStreamLoop_diverges (fuel i : Nat) (s : State) (hb : 256 ≤ s.bitCount)
    (hi : i < 256) : dataStreamLoop fuel i s = none := by
  induction fuel generalizing i s with
  | zero => rfl
  | succ fuel ih =>
    have h1 : i < s.bitCount := by omega
    rw [dataStreamLoop, if_pos h1]
    exact ih _ _ (by simpa using hb) (Nat.mod_lt _ (by decide))

theorem length_ultoaBIN_le (fuel v k : Nat) (acc : List Char) (hk : 1 ≤ k) (hv : v < 2 ^ k) :
    (ultoaBIN fuel v acc).length ≤ acc.length + k := by
  induction fuel generalizing v k acc with
  | zero => simp [ultoaBIN]
  | succ fuel ih =>
    simp only [ultoaBIN]
    split
    · simp; omega
    · rename_i h
      have hk2 : 2 ≤ k := by
        by_contra hc
        have : k = 1 := by omega
        subst this
        simp at hv
        omega
      have hv2 : v / 2 < 2 ^ (k - 1) := by
        have e : k = (k - 1) + 1 := by omega
        rw [e, pow_succ] at hv
        omega
      have := ih (v / 2) (k - 1) ((if v % 2 = 1 then '1' else '0') :: acc) (by omega) hv2
      simp at this ⊢
      omega

theorem binary_ultoaBIN (fuel v : Nat) (acc : List Char) (h : ∀ c ∈ acc, c = '0' ∨ c = '1') :
    ∀ c ∈ ultoaBIN fuel v acc, c = '0' ∨ c = '1' := by
  induction fuel generalizing v acc with
  | zero => simpa [ultoaBIN] using h
  | succ fuel ih =>
    have h1 : ∀ c ∈ (if v % 2 = 1 then '1' else '0') :: acc, c = '0' ∨ c = '1' := by
      intro c hc
      rcases List.mem_cons.1 hc with rfl | hc
      · split <;> simp
      · exact h c hc
    simp only [ultoaBIN]
    split
    · exact h1
    · exact ih _ _ h1

theorem length_padLoop (n fuel : Nat) (str : List Char) (hf : n - str.length ≤ fuel) :
    (padLoop n fuel str).length = max str.length n := by
  induction fuel generalizing str with
  | zero => simp [padLoop]; omega
  | succ fuel ih =>
    simp only [padLoop]
    split
    · rw [ih _ (by simp; omega)]; simp; omega
    · omega

theorem binary_padLoop (n fuel : Nat) (str : List Char) (h : ∀ c ∈ str, c = '0' ∨ c = '1') :
    ∀ c ∈ padLoop n fuel str, c = '0' ∨ c = '1' := by
  induction fuel generalizing str with
  | zero => simpa [padLoop] using h
  | succ fuel ih =>
    simp only [padLoop]
    split
    · apply ih
      intro c hc
      rcases List.mem_cons.1 hc with rfl | hc
      · simp
      · exact h c hc
    · exact h

/-- The value of `getDataStream` on a capture of at most 255 bits. -/
theorem getDataStream_eq (s : State) (hb : s.bitCount ≤ 255) :
    getDataStream s = some { s with
      dataStream := shiftInBits s.databits 0 s.bitCount s.dataStream,
      dataStreamBIN := padLoop s.bitCount s.bitCount
        (ultoaBIN 32 (shiftInBits s.databits 0 s.bitCount s.dataStream) []) } := by
  rw [getDataStream, dataStreamLoop_eq s.bitCount 257 0 s (by simp) hb (by omega)]
  simp [shiftInBits]

theorem getDataStream_diverges (s : State) (hb : 256 ≤ s.bitCount) : getDataStream s = none := by
  rw [getDataStream, dataStreamLoop_diverges 257 0 s hb (by decide)]

theorem shiftInBits_from_zero (db : Nat → Nat) (n : Nat) (h : ∀ i, i < n → db i ≤ 1) :
    shiftInBits db 0 n 0 = msbValue db 0 n % WORD := by
  have h1 := foldl_shiftIn db n 0 0 (fun i _ b => h i (by omega))
  simp only [Nat.zero_mod, Nat.zero_mul, Nat.zero_add] at h1
  rw [shiftInBits, Nat.sub_zero, h1]

/-- What `getDataStream` leaves for a frame of at most `MAX_BITS` bits captured from the
reset state: the frame value modulo `2^32` and its binary digits, left-padded with `0`. -/
theorem getDataStream_capture (s0 : State) (es : List Event) (h0 : IsReset s0)
    (hn : es.length ≤ MAX_BITS) :
    getDataStream (capture s0 es) = some { capture s0 es with
      dataStream := frameValue es % WORD,
      dataStreamBIN := padLoop es.length es.length (ultoaBIN 32 (frameValue es % WORD) []) } := by
  obtain ⟨hb, hd⟩ := capture_reset s0 es h0 hn
  have hds : (capture s0 es).dataStream = 0 := by
    rw [(capture_frame s0 es).2.2.1]; exact h0.2.2.2.2.2.2.2.2.1
  have hbits : ∀ i, i < es.length → (capture s0 es).databits i ≤ 1 := by
    intro i hi
    rw [hd i (by omega)]; exact frameBit_le _ _
  have hv : shiftInBits (capture s0 es).databits 0 (capture s0 es).bitCount
      (capture s0 es).dataStream = frameValue es % WORD := by
    rw [hb, hds, shiftInBits_from_zero _ _ hbits, frameValue]
    congr 1
    exact msbValue_congr _ _ _ _ (fun i _ h => hd i (by omega))
  rw [getDataStream_eq _ (by rw [hb]; unfold MAX_BITS at hn; omega), hv]
  simp only [hb]

/-! ## What the decoders leave alone -/

/-- The loop body of `case 37` writes the two chunks only. -/
theorem cardValuesBody37_frame (s : State) (i : Nat) :
    (cardValuesBody37 s i).bitHolder1 = s.bitHolder1 ∧
    (cardValuesBody37 s i).bitHolder2 = s.bitHolder2 ∧
    (cardValuesBody37 s i).bitCount = s.bitCount ∧
    (cardValuesBody37 s i).databits = s.databits ∧
    (cardValuesBody37 s i).facilityCode = s.facilityCode ∧
    (cardValuesBody37 s i).cardNumber = s.cardNumber ∧
    (cardValuesBody37 s i).dataStream = s.dataStream ∧
    (cardValuesBody37 s i).dataStreamBIN = s.dataStreamBIN ∧
    (cardValuesBody37 s i).flagDone = s.flagDone ∧
    (cardValuesBody37 s i).weigand_counter = s.weigand_counter := by
  simp only [cardValuesBody37]
  split_ifs <;> simp

/-- `getCardValues` writes the two chunks only. -/
theorem getCardValues_frame (s : State) :
    (getCardValues s).bitHolder1 = s.bitHolder1 ∧
    (getCardValues s).bitHolder2 = s.bitHolder2 ∧
    (getCardValues s).bitCount = s.bitCount ∧
    (getCardValues s).databits = s.databits ∧
    (getCardValues s).facilityCode = s.facilityCode ∧
    (getCardValues s).cardNumber = s.cardNumber ∧
    (getCardValues s).dataStream = s.dataStream ∧
    (getCardValues s).dataStreamBIN = s.dataStreamBIN ∧
    (getCardValues s).flagDone = s.flagDone ∧
    (getCardValues s).weigand_counter = s.weigand_counter := by
  have key : ∀ (body : State → Nat → State) (n : Nat),
      (∀ t i, (body t i).bitHolder1 = t.bitHolder1 ∧ (body t i).bitHolder2 = t.bitHolder2 ∧
        (body t i).bitCount = t.bitCount ∧ (body t i).databits = t.databits ∧
        (body t i).facilityCode = t.facilityCode ∧ (body t i).cardNumber = t.cardNumber ∧
        (body t i).dataStream = t.dataStream ∧ (body t i).dataStreamBIN = t.dataStreamBIN ∧
        (body t i).flagDone = t.flagDone ∧ (body t i).weigand_counter = t.weigand_counter) →
      ((countDown body n s).bitHolder1 = s.bitHolder1 ∧
        (countDown body n s).bitHolder2 = s.bitHolder2 ∧
        (countDown body n s).bitCount = s.bitCount ∧
        (countDown body n s).databits = s.databits ∧
        (countDown body n s).facilityCode = s.facilityCode ∧
        (countDown body n s).cardNumber = s.cardNumber ∧
        (countDown body n s).dataStream = s.dataStream ∧
        (countDown body n s).dataStreamBIN = s.dataStreamBIN ∧
        (countDown body n s).flagDone = s.flagDone ∧
        (countDown body n s).weigand_counter = s.weigand_counter) := by
    intro body n hbody
    refine countDown_induct body (fun t => t.bitHolder1 = s.bitHolder1 ∧
      t.bitHolder2 = s.bitHolder2 ∧ t.bitCount = s.bitCount ∧ t.databits = s.databits ∧
      t.facilityCode = s.facilityCode ∧ t.cardNumber = s.cardNumber ∧
      t.dataStream = s.dataStream ∧ t.dataStreamBIN = s.dataStreamBIN ∧
      t.flagDone = s.flagDone ∧ t.weigand_counter = s.weigand_counter) ?_ n s
      ⟨rfl, rfl, rfl, rfl, rfl, rfl, rfl, rfl, rfl, rfl⟩
    intro t i ht
    obtain ⟨a1, a2, a3, a4, a5, a6, a7, a8, a9, a10⟩ := hbody t i
    obtain ⟨b1, b2, b3, b4, b5, b6, b7, b8, b9, b10⟩ := ht
    exact ⟨a1.trans b1, a2.trans b2, a3.trans b3, a4.trans b4, a5.trans b5, a6.trans b6,
      a7.trans b7, a8.trans b8, a9.trans b9, a10.trans b10⟩
  unfold getCardValues
  split <;>
    first
    | exact key _ _ (cardValuesBody_frame _ _ _ _ _ _)
    | exact key _ _ cardValuesBody37_frame
    | exact ⟨rfl, rfl, rfl, rfl, rfl, rfl, rfl, rfl, rfl, rfl⟩

/-- `getFacilityCodeCardNumber` writes `facilityCode` and `cardNumber` only. -/
theorem getFacilityCodeCardNumber_frame (s : State) :
    (getFacilityCodeCardNumber s).bitCount = s.bitCount ∧
    (getFacilityCodeCardNumber s).databits = s.databits ∧
    (getFacilityCodeCardNumber s).dataStream = s.dataStream ∧
    (getFacilityCodeCardNumber s).dataStreamBIN = s.dataStreamBIN ∧
    (getFacilityCodeCardNumber s).bitHolder1 = s.bitHolder1 ∧
    (getFacilityCodeCardNumber s).bitHolder2 = s.bitHolder2 ∧
    (getFacilityCodeCardNumber s).cardChunk1 = s.cardChunk1 ∧
    (getFacilityCodeCardNumber s).cardChunk2 = s.cardChunk2 ∧
    (getFacilityCodeCardNumber s).flagDone = s.flagDone ∧
    (getFacilityCodeCardNumber s).weigand_counter = s.weigand_counter := by
  unfold getFacilityCodeCardNumber
  split <;> exact ⟨rfl, rfl, rfl, rfl, rfl, rfl, rfl, rfl, rfl, rfl⟩

/-- A pass of `loop` while the countdown is running and above 1: the counter drops by
one, nothing else changes, nothing is emitted. -/
theorem loop_waiting (e : Bool) (s : State) (hf : s.flagDone = 0)
    (h1 : 1 < s.weigand_counter) (h2 : s.weigand_counter < WORD) :
    loop e s = some ({ s with weigand_counter := s.weigand_counter - 1 }, []) := by
  have hm : (s.weigand_counter + (WORD - 1)) % WORD = s.weigand_counter - 1 := by
    unfold WORD at *; omega
  have hne : s.weigand_counter - 1 ≠ 0 := by omega
  simp [loop, countdown, hf, hm, hne]

/-- The pass of `loop` that finds the countdown at 1 sets `flagDone` and, a bit being
captured, runs the decoding block in that same pass. -/
theorem loop_expiring (e : Bool) (s : State) (hf : s.flagDone = 0)
    (h1 : s.weigand_counter = 1) (hb : 1 ≤ s.bitCount) :
    loop e s = processFrame e { s with weigand_counter := 0, flagDone := 1 } := by
  have hm : (s.weigand_counter + (WORD - 1)) % WORD = 0 := by
    rw [h1]; decide
  have hb' : 0 < s.bitCount := hb
  simp [loop, countdown, hf, hm, hb']

/-- `k` passes of `loop` while the countdown stays above zero. -/
theorem passes_waiting (e : Bool) (k : Nat) (s : State) (hf : s.flagDone = 0)
    (h1 : k < s.weigand_counter) (h2 : s.weigand_counter < WORD) :
    passes e k s = some ({ s with weigand_counter := s.weigand_counter - k }, []) := by
  induction k generalizing s with
  | zero => simp [passes]
  | succ k ih =>
    have h3 := ih { s with weigand_counter := s.weigand_counter - 1 } hf
      (show k < s.weigand_counter - 1 by omega) (show s.weigand_counter - 1 < WORD by omega)
    rw [passes, loop_waiting e s hf (by omega) h2]
    simp only []
    rw [h3]
    simp only [List.append_nil, Option.some.injEq, Prod.mk.injEq, and_true]
    congr 1
    omega

theorem passes_succ_last (e : Bool) (k : Nat) (s s1 : State) (out1 : List Output)
    (h : passes e k s = some (s1, out1)) :
    passes e (k + 1) s =
      match loop e s1 with
      | none => none
      | some (s2, out2) => some (s2, out1 ++ out2) := by
  induction k generalizing s s1 out1 with
  | zero =>
    simp only [passes, Option.some.injEq, Prod.mk.injEq] at h
    obtain ⟨rfl, rfl⟩ := h
    simp only [passes]
    cases loop e s with
    | none => rfl
    | some p => simp
  | succ k ih =>
    rw [passes] at h
    rw [passes]
    cases hl : loop e s with
    | none => rw [hl] at h; simp at h
    | some p =>
      obtain ⟨t, o⟩ := p
      rw [hl] at h
      simp only [] at h ⊢
      cases hp : passes e k t with
      | none => rw [hp] at h; simp at h
      | some q =>
        obtain ⟨t2, o2⟩ := q
        rw [hp] at h
        simp only [Option.some.injEq, Prod.mk.injEq] at h
        obtain ⟨rfl, rfl⟩ := h
        rw [ih t t2 o2 hp]
        cases loop e t2 with
        | none => rfl
        | some r => simp

/-- The decoding block on a capture of at most 255 bits: it returns, with the decoded
state cleaned up and the reports on the decoded state as output. -/
theorem processFrame_returns (e : Bool) (s : State) (hb : s.bitCount ≤ 255) :
    ∃ s1, getDataStream s = some s1 ∧ s1.bitCount = s.bitCount ∧
      processFrame e s = some (cleanup (getFacilityCodeCardNumber (getCardValues s1)),
        report e (getFacilityCodeCardNumber (getCardValues s1))) := by
  refine ⟨_, getDataStream_eq s hb, rfl, ?_⟩
  rw [processFrame, getDataStream_eq s hb]

theorem csv_mem_report (e : Bool) (s : State) : Output.csv (recordOf s) ∈ report e s := by
  simp [report]

/-- The decoding block on a capture of 256 bits or more never returns. -/
theorem processFrame_diverges (e : Bool) (s : State) (hb : 256 ≤ s.bitCount) :
    processFrame e s = none := by
  rw [processFrame, getDataStream_diverges s hb]

/-- `WEIGAND_WAIT_TIME` passes of `loop` after an event, a bit being captured: 2999 idle
passes, then the pass that completes the frame and runs the decoding block. -/
theorem passes_timeout (e : Bool) (s : State) (hf : s.flagDone = 0)
    (hw : s.weigand_counter = WEIGAND_WAIT_TIME) (hb : 1 ≤ s.bitCount) :
    passes e WEIGAND_WAIT_TIME s =
      processFrame e { s with weigand_counter := 0, flagDone := 1 } := by
  have h1 := passes_waiting e 2999 s hf (by rw [hw]; decide) (by rw [hw]; decide)
  have h2 := passes_succ_last e 2999 s _ _ h1
  have h3 := loop_expiring e { s with weigand_counter := s.weigand_counter - 2999 } hf
    (by simp only [hw]; decide) hb
  have e3000 : WEIGAND_WAIT_TIME = 2999 + 1 := by decide
  rw [e3000, h2, h3]
  simp only [List.nil_append]
  cases processFrame e _ with
  | none => rfl
  | some p => rfl

/-- The countdown touches `flagDone` and `weigand_counter` only. -/
theorem countdown_frame (s : State) :
    (countdown s).bitCount = s.bitCount ∧ (countdown s).databits = s.databits ∧
    (countdown s).facilityCode = s.facilityCode ∧ (countdown s).cardNumber = s.cardNumber ∧
    (countdown s).dataStream = s.dataStream ∧ (countdown s).dataStreamBIN = s.dataStreamBIN ∧
    (countdown s).bitHolder1 = s.bitHolder1 ∧ (countdown s).bitHolder2 = s.bitHolder2 ∧
    (countdown s).cardChunk1 = s.cardChunk1 ∧ (countdown s).cardChunk2 = s.cardChunk2 := by
  simp only [countdown]
  split_ifs <;> exact ⟨rfl, rfl, rfl, rfl, rfl, rfl, rfl, rfl, rfl, rfl⟩

/-- With no bit captured a pass of `loop` is its countdown: no decoding, no output. -/
theorem loop_idle (e : Bool) (s : State) (hb : s.bitCount = 0) :
    loop e s = some (countdown s, []) := by
  have h : (countdown s).bitCount = 0 := by rw [(countdown_frame s).1, hb]
  unfold loop
  simp only []
  rw [if_neg (fun hc => by have := hc.1; omega)]

/-- Every output of `report` carries the record of the reported state. -/
theorem record_of_mem_report (e : Bool) (s : State) (o : Output) (h : o ∈ report e s) :
    o.record = recordOf s := by
  simp only [report, consoleLog, List.mem_append, List.mem_singleton] at h
  rcases h with (h | h) | h
  · rw [h]; rfl
  · split at h
    · split at h
      · rw [List.mem_singleton.1 h]; rfl
      · simp at h
    · simp at h
  · rw [h]; rfl

/-- On a capture of 256 bits or more the pass that finds the countdown at 1 never
returns. -/
theorem loop_expiring_diverges (e : Bool) (s : State) (hf : s.flagDone = 0)
    (hb : 256 ≤ s.bitCount) : loop e { s with weigand_counter := 1 } = none := by
  rw [loop_expiring e { s with weigand_counter := 1 } hf rfl (by simp only []; omega)]
  exact processFrame_diverges _ _ (by simp only []; omega)

/-- The inactivity timeout on a capture of 1 to 255 bits.  From a state just after an
event (`flagDone = 0`, `weigand_counter = WEIGAND_WAIT_TIME`), consecutive passes of
`loop` emit nothing and change only the countdown on passes 1 to 2999; the 3000th pass
sets `flagDone`, runs the decoding block in that same pass and emits the record of the
frame; an event arriving before then puts the countdown back at `WEIGAND_WAIT_TIME`. -/
theorem inactivity_timeout (e : Bool) (s : State) (hf : s.flagDone = 0)
    (hw : s.weigand_counter = WEIGAND_WAIT_TIME) (h1 : 1 ≤ s.bitCount)
    (h2 : s.bitCount ≤ 255) :
    (∀ k, k < WEIGAND_WAIT_TIME →
      passes e k s = some ({ s with weigand_counter := WEIGAND_WAIT_TIME - k }, [])) ∧
    passes e WEIGAND_WAIT_TIME s =
      processFrame e { s with weigand_counter := 0, flagDone := 1 } ∧
    (∃ st out r, passes e WEIGAND_WAIT_TIME s = some (st, out) ∧ Output.csv r ∈ out ∧
      r.bitCount = s.bitCount ∧ st.bitCount = 0) ∧
    (∀ k ev, k < WEIGAND_WAIT_TIME →
      (handle { s with weigand_counter := WEIGAND_WAIT_TIME - k } ev).weigand_counter =
        WEIGAND_WAIT_TIME ∧
      (handle { s with weigand_counter := WEIGAND_WAIT_TIME - k } ev).flagDone = 0) := by
  refine ⟨?_, passes_timeout e s hf hw h1, ?_, ?_⟩
  · intro k hk
    have := passes_waiting e k s hf (by rw [hw]; exact hk) (by rw [hw]; decide)
    rw [this, hw]
  · obtain ⟨s1, _, hb1, hp⟩ :=
      processFrame_returns e { s with weigand_counter := 0, flagDone := 1 } h2
    refine ⟨cleanup (getFacilityCodeCardNumber (getCardValues s1)),
      report e (getFacilityCodeCardNumber (getCardValues s1)),
      recordOf (getFacilityCodeCardNumber (getCardValues s1)), ?_, csv_mem_report _ _, ?_, ?_⟩
    · rw [passes_timeout e s hf hw h1, hp]
    · simp only [recordOf]
      rw [(getFacilityCodeCardNumber_frame _).1, (getCardValues_frame _).2.2.1, hb1]
    · rfl
  · intro k ev _
    have := handle_timer { s with weigand_counter := WEIGAND_WAIT_TIME - k } ev
    exact ⟨this.2, this.1⟩

/-- The inactivity timeout at the example frame of §8, just after its last event. -/
theorem inactivity_timeout_example :
    (∀ k, k < WEIGAND_WAIT_TIME →
      passes true k (capture initState exampleFrame) =
        some ({ capture initState exampleFrame with
          weigand_counter := WEIGAND_WAIT_TIME - k }, [])) ∧
    (∃ st out r, passes true WEIGAND_WAIT_TIME (capture initState exampleFrame) =
      some (st, out) ∧ Output.csv r ∈ out ∧ r.bitCount = 26 ∧ st.bitCount = 0) := by
  have hb : (capture initState exampleFrame).bitCount = 26 :=
    (capture_reset initState exampleFrame initState_isReset (by decide)).1
  obtain ⟨hf, hw⟩ := capture_timer initState exampleFrame (by decide)
  have h := inactivity_timeout true (capture initState exampleFrame) hf hw
    (by rw [hb]; decide) (by rw [hb]; decide)
  obtain ⟨st, out, r, g1, g2, g3, g4⟩ := h.2.2.1
  exact ⟨h.1, st, out, r, g1, g2, g3.trans hb, g4⟩

theorem cleanup_isReset (s : State) : IsReset (cleanup s) := by
  refine ⟨rfl, ?_, rfl, rfl, rfl, rfl, rfl, rfl, rfl, rfl⟩
  intro i hi
  simp only [cleanup, if_pos hi]

theorem report_ne_nil (e : Bool) (s : State) : report e s ≠ [] := by
  simp [report]

theorem loop_cases (e : Bool) (s st : State) (out : List Output)
    (h : loop e s = some (st, out)) :
    (st = countdown s ∧ out = []) ∨
    (0 < (countdown s).bitCount ∧ (countdown s).flagDone ≠ 0 ∧
      ∃ s1, getDataStream (countdown s) = some s1 ∧
        st = cleanup (getFacilityCodeCardNumber (getCardValues s1)) ∧
        out = report e (getFacilityCodeCardNumber (getCardValues s1))) := by
  unfold loop at h
  simp only [] at h
  by_cases hc : (countdown s).bitCount > 0 ∧ (countdown s).flagDone ≠ 0
  · rw [if_pos hc] at h
    right
    refine ⟨hc.1, hc.2, ?_⟩
    unfold processFrame at h
    cases hg : getDataStream (countdown s) with
    | none => rw [hg] at h; cases h
    | some s1 =>
      rw [hg] at h
      simp only [Option.some.injEq, Prod.mk.injEq] at h
      exact ⟨s1, rfl, h.1.symm, h.2.symm⟩
  · rw [if_neg hc] at h
    simp only [Option.some.injEq, Prod.mk.injEq] at h
    exact Or.inl ⟨h.1.symm, h.2.symm⟩

theorem report_eq (e : Bool) (s : State) :
    report e s =
      [Output.console (decide ((recordOf s).facilityCode > 0)) (recordOf s)] ++
      (if e = true ∧ (recordOf s).facilityCode > 0 ∧ (recordOf s).cardNumber > 0 then
        [Output.email (recordOf s)] else []) ++
      [Output.csv (recordOf s)] := by
  cases e <;> simp [report, consoleLog, recordOf]

/-- The pass that finds the countdown at 1 with 1 to 255 bits captured returns: it
decodes, reports and cleans up. -/
theorem loop_expiring_returns (e : Bool) (s : State) (hf : s.flagDone = 0)
    (hb1 : 1 ≤ s.bitCount) (hb2 : s.bitCount ≤ 255) :
    ∃ d, loop e { s with weigand_counter := 1 } = some (cleanup d, report e d) := by
  obtain ⟨s1, _, _, hp⟩ :=
    processFrame_returns e
      { { s with weigand_counter := 1 } with weigand_counter := 0, flagDone := 1 } hb2
  exact ⟨_, (loop_expiring e { s with weigand_counter := 1 } hf rfl hb1).trans hp⟩

/-- The example frame captured from the state `setup` leaves, the countdown being at its
last value: the next pass of `loop` decodes it. -/
theorem example_expiring (e : Bool) :
    ∃ d, loop e { capture initState exampleFrame with weigand_counter := 1 } =
      some (cleanup d, report e d) := by
  have hb : (capture initState exampleFrame).bitCount = 26 :=
    (capture_reset initState exampleFrame initState_isReset (by decide)).1
  obtain ⟨hf, _⟩ := capture_timer initState exampleFrame (by decide)
  exact loop_expiring_returns e _ hf (by rw [hb]; decide) (by rw [hb]; decide)

/-- Passes of `loop` with no bit captured: no output, and the frame globals stay. -/
theorem passes_idle_frame (e : Bool) (n : Nat) (s : State) (hb : s.bitCount = 0) :
    ∃ st, passes e n s = some (st, []) ∧ st.bitCount = 0 ∧ st.databits = s.databits ∧
      st.bitHolder1 = s.bitHolder1 ∧ st.bitHolder2 = s.bitHolder2 ∧
      st.cardChunk1 = s.cardChunk1 ∧ st.cardChunk2 = s.cardChunk2 ∧
      st.facilityCode = s.facilityCode ∧ st.cardNumber = s.cardNumber ∧
      st.dataStreamBIN = s.dataStreamBIN := by
  induction n generalizing s with
  | zero => exact ⟨s, rfl, hb, rfl, rfl, rfl, rfl, rfl, rfl, rfl, rfl⟩
  | succ n ih =>
    obtain ⟨c1, c2, c3, c4, _, c6, c7, c8, c9, c10⟩ := countdown_frame s
    obtain ⟨st, h1, h2, h3, h4, h5, h6, h7, h8, h9, h10⟩ := ih (countdown s) (c1.trans hb)
    refine ⟨st, ?_, h2, h3.trans c2, h4.trans c7, h5.trans c8, h6.trans c9, h7.trans c10,
      h8.trans c3, h9.trans c4, h10.trans c6⟩
    rw [passes, loop_idle e s hb]
    simp only []
    rw [h1]
    rfl

/-! ## Invariants of the reachable states -/

/-- When `getDataStream` returns, at most 255 bits were captured and only `dataStream`
and `dataStreamBIN` have changed. -/
theorem getDataStream_some (s s1 : State) (h : getDataStream s = some s1) :
    s.bitCount ≤ 255 ∧ s1.bitCount = s.bitCount ∧ s1.databits = s.databits ∧
    s1.flagDone = s.flagDone ∧ s1.weigand_counter = s.weigand_counter ∧
    s1.bitHolder1 = s.bitHolder1 ∧ s1.bitHolder2 = s.bitHolder2 ∧
    s1.cardChunk1 = s.cardChunk1 ∧ s1.cardChunk2 = s.cardChunk2 ∧
    s1.facilityCode = s.facilityCode ∧ s1.cardNumber = s.cardNumber := by
  have hb : s.bitCount ≤ 255 := by
    by_contra hc
    rw [getDataStream_diverges s (by omega)] at h
    cases h
  rw [getDataStream_eq s hb] at h
  simp only [Option.some.injEq] at h
  subst h
  exact ⟨hb, rfl, rfl, rfl, rfl, rfl, rfl, rfl, rfl, rfl, rfl⟩

/-- The timer after a pass of `loop` that returns. -/
theorem loop_timer (e : Bool) (s st : State) (out : List Output)
    (h : loop e s = some (st, out)) :
    st.flagDone = (countdown s).flagDone ∧
    st.weigand_counter = (countdown s).weigand_counter := by
  rcases loop_cases e s st out h with ⟨h0, _⟩ | ⟨_, _, s1, hg, hst, _⟩
  · rw [h0]; exact ⟨rfl, rfl⟩
  · obtain ⟨_, _, _, g4, g5, _⟩ := getDataStream_some _ _ hg
    have a := getFacilityCodeCardNumber_frame (getCardValues s1)
    have b := getCardValues_frame s1
    rw [hst]
    exact ⟨(a.2.2.2.2.2.2.2.2.1.trans b.2.2.2.2.2.2.2.2.1).trans g4,
      (a.2.2.2.2.2.2.2.2.2.trans b.2.2.2.2.2.2.2.2.2).trans g5⟩

/-- The countdown of `loop` keeps the timer invariant, and under it the decrement does
not wrap. -/
theorem countdown_timer (s : State) (hinv : s.flagDone = 0 →
    1 ≤ s.weigand_counter ∧ s.weigand_counter ≤ WEIGAND_WAIT_TIME) :
    ((countdown s).flagDone = 0 →
      1 ≤ (countdown s).weigand_counter ∧
      (countdown s).weigand_counter ≤ WEIGAND_WAIT_TIME) ∧
    (s.flagDone = 0 → (countdown s).weigand_counter = s.weigand_counter - 1) := by
  by_cases hf : s.flagDone = 0
  · obtain ⟨h1, h2⟩ := hinv hf
    have hm : (s.weigand_counter + (WORD - 1)) % WORD = s.weigand_counter - 1 := by
      unfold WEIGAND_WAIT_TIME at h2; unfold WORD; omega
    by_cases h0 : s.weigand_counter - 1 = 0
    · have hc : countdown s =
          { s with weigand_counter := s.weigand_counter - 1, flagDone := 1 } := by
        simp [countdown, hf, hm, h0]
      rw [hc]
      exact ⟨fun h => absurd h (by simp), fun _ => rfl⟩
    · have hc : countdown s = { s with weigand_counter := s.weigand_counter - 1 } := by
        simp [countdown, hf, hm, h0]
      rw [hc]
      refine ⟨fun _ => ⟨?_, ?_⟩, fun _ => rfl⟩
      · show 1 ≤ s.weigand_counter - 1
        omega
      · show s.weigand_counter - 1 ≤ WEIGAND_WAIT_TIME
        omega
  · have hc : countdown s = s := by simp [countdown, hf]
    rw [hc]
    exact ⟨hinv, fun h => absurd h hf⟩

/-- The timer invariant on every state reached from the state `setup` leaves. -/
theorem reach_timer (e : Bool) (s : State) (h : Reach e TimerArmed (fun _ => True) s) :
    s.flagDone = 0 → 1 ≤ s.weigand_counter ∧ s.weigand_counter ≤ WEIGAND_WAIT_TIME := by
  induction h with
  | init s hi =>
    intro _
    rw [hi.2]
    exact ⟨by decide, le_refl _⟩
  | event s ev _ _ _ =>
    intro _
    rw [(handle_timer s ev).2]
    exact ⟨by decide, le_refl _⟩
  | pass s st out _ hl ih =>
    obtain ⟨t1, t2⟩ := loop_timer e s st out hl
    rw [t1, t2]
    exact (countdown_timer s ih).1

/-- The buffer invariant on every state reached from a reset state with at most
`MAX_BITS` events per frame. -/
theorem reach_buffer (e : Bool) (s : State) (h : Reach e IsReset RoomInFrame s) :
    s.bitCount ≤ MAX_BITS ∧
    (∀ i, i < MAX_BITS → s.databits i = 0 ∨ s.databits i = 1) ∧
    (∀ i, s.bitCount ≤ i → i < MAX_BITS → s.databits i = 0) := by
  induction h with
  | init s hi =>
    obtain ⟨hb, hd, _⟩ := hi
    exact ⟨by rw [hb]; exact Nat.zero_le _, fun i h => Or.inl (hd i h), fun i _ h => hd i h⟩
  | event s ev _ hg ih =>
    obtain ⟨_, ih2, ih3⟩ := ih
    have hg1 : s.bitCount < MAX_BITS := hg
    have hm : (s.bitCount + 1) % WORD = s.bitCount + 1 :=
      Nat.mod_eq_of_lt (by unfold MAX_BITS at hg1; unfold WORD; omega)
    cases ev with
    | ZERO =>
      have hbc : (handle s Event.ZERO).bitCount = s.bitCount + 1 :=
        (ISR_INT0_bitCount s).trans hm
      have hdb : (handle s Event.ZERO).databits = s.databits := ISR_INT0_databits s
      rw [hbc, hdb]
      exact ⟨hg1, ih2, fun i h1 h2 => ih3 i (by omega) h2⟩
    | ONE =>
      have hbc : (handle s Event.ONE).bitCount = s.bitCount + 1 :=
        (ISR_INT1_bitCount s).trans hm
      have hdb : (handle s Event.ONE).databits = Function.update s.databits s.bitCount 1 :=
        ISR_INT1_databits s
      rw [hbc, hdb]
      refine ⟨hg1, fun i h => ?_, fun i h1 h2 => ?_⟩
      · by_cases hi : i = s.bitCount
        · right; rw [hi]; exact Function.update_same _ _ _
        · rw [Function.update_noteq hi]; exact ih2 i h
      · rw [Function.update_noteq (by omega)]
        exact ih3 i (by omega) h2
  | pass s st out _ hl ih =>
    rcases loop_cases e s st out hl with ⟨h0, _⟩ | ⟨_, _, s1, _, hst, _⟩
    · obtain ⟨c1, c2, _⟩ := countdown_frame s
      rw [h0, c1, c2]
      exact ih
    · obtain ⟨a1, a2, _⟩ := cleanup_isReset (getFacilityCodeCardNumber (getCardValues s1))
      rw [hst]
      exact ⟨by rw [a1]; exact Nat.zero_le _, fun i h => Or.inl (a2 i h), fun i _ h => a2 i h⟩

/-! ## States that hold the same frame decode to the same record -/

theorem shiftInBits_congr (f g : Nat → Nat) (lo hi acc : Nat)
    (h : ∀ i, lo ≤ i → i < hi → f i = g i) :
    shiftInBits f lo hi acc = shiftInBits g lo hi acc := by
  have key : ∀ n lo acc, (∀ i, lo ≤ i → i < lo + n → f i = g i) →
      (List.range' lo n).foldl (fun a i => ((a <<< 1) % WORD) ||| f i) acc =
      (List.range' lo n).foldl (fun a i => ((a <<< 1) % WORD) ||| g i) acc := by
    intro n
    induction n with
    | zero => intro lo acc _; rfl
    | succ n ih =>
      intro lo acc hfg
      rw [List.range'_succ, List.foldl_cons, List.foldl_cons, hfg lo (le_refl _) (by omega)]
      exact ih (lo + 1) _ (fun i a b => hfg i (by omega) (by omega))
  exact key (hi - lo) lo acc (fun i a b => h i a (by omega))

/-- A relation between states that two loop bodies maintain is maintained by their
loops. -/
theorem countDown_rel (body1 body2 : State → Nat → State) (R : State → State → Prop)
    (h : ∀ s t i, R s t → R (body1 s i) (body2 t i)) (n : Nat) (s t : State) (hst : R s t) :
    R (countDown body1 n s) (countDown body2 n t) := by
  induction n generalizing s t with
  | zero => exact hst
  | succ n ih => exact ih _ _ (h s t n hst)

theorem cardValuesBody37_cardChunk1 (s : State) (i : Nat) :
    (cardValuesBody37 s i).cardChunk1 =
      bitWrite s.cardChunk1 i (if i = 13 then 0 else bitRead s.bitHolder1 (i + 9)) := by
  simp only [cardValuesBody37]
  split_ifs <;> rfl

/-- The second chunk is written by `case 37` as by the other cases, with the constants
9, 15 and 15. -/
theorem cardValuesBody37_cardChunk2 (hi lo shift : Nat) (s : State) (i : Nat) :
    (cardValuesBody37 s i).cardChunk2 =
      (cardValuesBody hi lo shift 9 15 15 s i).cardChunk2 := by
  simp only [cardValuesBody37, cardValuesBody]
  split_ifs <;> rfl

/-- The chunks that `getCardValues` leaves depend on `bitCount`, the holders and the
chunks on entry only. -/
theorem getCardValues_congr (s t : State) (hb : s.bitCount = t.bitCount)
    (h1 : s.bitHolder1 = t.bitHolder1) (h2 : s.bitHolder2 = t.bitHolder2)
    (c1 : s.cardChunk1 = t.cardChunk1) (c2 : s.cardChunk2 = t.cardChunk2) :
    (getCardValues s).cardChunk1 = (getCardValues t).cardChunk1 ∧
    (getCardValues s).cardChunk2 = (getCardValues t).cardChunk2 := by
  have hR : (fun a b : State => a.bitHolder1 = b.bitHolder1 ∧ a.bitHolder2 = b.bitHolder2 ∧
      a.cardChunk1 = b.cardChunk1 ∧ a.cardChunk2 = b.cardChunk2) s t := ⟨h1, h2, c1, c2⟩
  have b1 : ∀ (hi lo shift a k b : Nat) (x y : State) (i : Nat),
      (x.bitHolder1 = y.bitHolder1 ∧ x.bitHolder2 = y.bitHolder2 ∧
        x.cardChunk1 = y.cardChunk1 ∧ x.cardChunk2 = y.cardChunk2) →
      ((cardValuesBody hi lo shift a k b x i).bitHolder1 =
          (cardValuesBody hi lo shift a k b y i).bitHolder1 ∧
        (cardValuesBody hi lo shift a k b x i).bitHolder2 =
          (cardValuesBody hi lo shift a k b y i).bitHolder2 ∧
        (cardValuesBody hi lo shift a k b x i).cardChunk1 =
          (cardValuesBody hi lo shift a k b y i).cardChunk1 ∧
        (cardValuesBody hi lo shift a k b x i).cardChunk2 =
          (cardValuesBody hi lo shift a k b y i).cardChunk2) := by
    intro hi lo shift a k b x y i ⟨e1, e2, e3, e4⟩
    rw [(cardValuesBody_frame hi lo shift a k b x i).1,
      (cardValuesBody_frame hi lo shift a k b y i).1,
      (cardValuesBody_frame hi lo shift a k b x i).2.1,
      (cardValuesBody_frame hi lo shift a k b y i).2.1,
      cardValuesBody_cardChunk1, cardValuesBody_cardChunk1,
      cardValuesBody_cardChunk2, cardValuesBody_cardChunk2, e1, e2, e3, e4]
    exact ⟨rfl, rfl, rfl, rfl⟩
  have b2 : ∀ (x y : State) (i : Nat),
      (x.bitHolder1 = y.bitHolder1 ∧ x.bitHolder2 = y.bitHolder2 ∧
        x.cardChunk1 = y.cardChunk1 ∧ x.cardChunk2 = y.cardChunk2) →
      ((cardValuesBody37 x i).bitHolder1 = (cardValuesBody37 y i).bitHolder1 ∧
        (cardValuesBody37 x i).bitHolder2 = (cardValuesBody37 y i).bitHolder2 ∧
        (cardValuesBody37 x i).cardChunk1 = (cardValuesBody37 y i).cardChunk1 ∧
        (cardValuesBody37 x i).cardChunk2 = (cardValuesBody37 y i).cardChunk2) := by
    intro x y i ⟨e1, e2, e3, e4⟩
    rw [(cardValuesBody37_frame x i).1, (cardValuesBody37_frame y i).1,
      (cardValuesBody37_frame x i).2.1, (cardValuesBody37_frame y i).2.1,
      cardValuesBody37_cardChunk1, cardValuesBody37_cardChunk1,
      cardValuesBody37_cardChunk2 0 0 0, cardValuesBody37_cardChunk2 0 0 0,
      cardValuesBody_cardChunk2, cardValuesBody_cardChunk2, e1, e2, e3, e4]
    exact ⟨rfl, rfl, rfl, rfl⟩
  have k1 : ∀ (hi lo shift a k b n : Nat),
      (countDown (cardValuesBody hi lo shift a k b) n s).cardChunk1 =
        (countDown (cardValuesBody hi lo shift a k b) n t).cardChunk1 ∧
      (countDown (cardValuesBody hi lo shift a k b) n s).cardChunk2 =
        (countDown (cardValuesBody hi lo shift a k b) n t).cardChunk2 :=
    fun hi lo shift a k b n =>
      (countDown_rel (cardValuesBody hi lo shift a k b) (cardValuesBody hi lo shift a k b)
        (fun a b : State => a.bitHolder1 = b.bitHolder1 ∧ a.bitHolder2 = b.bitHolder2 ∧
          a.cardChunk1 = b.cardChunk1 ∧ a.cardChunk2 = b.cardChunk2)
        (b1 hi lo shift a k b) n s t hR).2.2
  have k2 : ∀ n : Nat,
      (countDown cardValuesBody37 n s).cardChunk1 =
        (countDown cardValuesBody37 n t).cardChunk1 ∧
      (countDown cardValuesBody37 n s).cardChunk2 =
        (countDown cardValuesBody37 n t).cardChunk2 :=
    fun n =>
      (countDown_rel cardValuesBody37 cardValuesBody37
        (fun a b : State => a.bitHolder1 = b.bitHolder1 ∧ a.bitHolder2 = b.bitHolder2 ∧
          a.cardChunk1 = b.cardChunk1 ∧ a.cardChunk2 = b.cardChunk2)
        b2 n s t hR).2.2
  unfold getCardValues
  rw [hb]
  split
  · exact k1 13 2 20 20 4 4 20
  · exact k1 13 3 19 19 5 5 20
  · exact k1 13 4 18 18 6 6 20
  · exact k1 13 5 17 17 7 7 20
  · exact k1 13 6 16 16 8 8 20
  · exact k1 13 7 15 15 9 9 20
  · exact k1 13 8 14 14 10 10 20
  · exact k1 15 11 17 17 15 15 20
  · exact k1 13 10 12 12 12 12 20
  · exact k1 13 11 11 11 13 13 20
  · exact k1 17 16 14 14 18 18 36
  · exact k2 20
  · exact ⟨c1, c2⟩

/-- The fields that `getFacilityCodeCardNumber` leaves depend on `bitCount`, the cells
of the array `databits` and the fields on entry only. -/
theorem getFacilityCodeCardNumber_congr (s t : State) (hb : s.bitCount = t.bitCount)
    (hd : ∀ i, i < MAX_BITS → s.databits i = t.databits i)
    (hf : s.facilityCode = t.facilityCode) (hc : s.cardNumber = t.cardNumber) :
    (getFacilityCodeCardNumber s).facilityCode = (getFacilityCodeCardNumber t).facilityCode ∧
    (getFacilityCodeCardNumber s).cardNumber = (getFacilityCodeCardNumber t).cardNumber := by
  have key : ∀ lo hi acc, hi ≤ 36 →
      shiftInBits s.databits lo hi acc = shiftInBits t.databits lo hi acc :=
    fun lo hi acc hhi => shiftInBits_congr _ _ _ _ _
      (fun i _ h => hd i (by unfold MAX_BITS; omega))
  unfold getFacilityCodeCardNumber
  rw [hb]
  split
  · exact ⟨by simp only []; rw [hf]; exact key 1 9 _ (by decide),
      by simp only []; rw [hc]; exact key 9 25 _ (by decide)⟩
  · exact ⟨by simp only []; rw [hf]; exact key 1 13 _ (by decide),
      by simp only []; rw [hc]; exact key 14 27 _ (by decide)⟩
  · exact ⟨by simp only []; rw [hf]; exact key 1 13 _ (by decide),
      by simp only []; rw [hc]; exact key 14 29 _ (by decide)⟩
  · exact ⟨by simp only []; rw [hf]; exact key 1 8 _ (by decide),
      by simp only []; rw [hc]; exact key 8 32 _ (by decide)⟩
  · exact ⟨by simp only []; rw [hf]; exact key 1 17 _ (by decide),
      by simp only []; rw [hc]; exact key 17 33 _ (by decide)⟩
  · exact ⟨by simp only []; rw [hf]; exact key 2 14 _ (by decide),
      by simp only []; rw [hc]; exact key 14 34 _ (by decide)⟩
  · exact ⟨by simp only []; rw [hf]; exact key 1 17 _ (by decide),
      by simp only []; rw [hc]; exact key 17 36 _ (by decide)⟩
  · exact ⟨hf, hc⟩

/-- Two captures of the same events from reset states hold the same frame. -/
theorem capture_sameFrame (s0 t0 : State) (es : List Event) (hs : IsReset s0)
    (ht : IsReset t0) (hn : es.length ≤ MAX_BITS) :
    SameFrame (capture s0 es) (capture t0 es) := by
  have hlen : es.length < WORD := by unfold MAX_BITS at hn; unfold WORD; omega
  obtain ⟨a1, a2⟩ := capture_reset s0 es hs hn
  obtain ⟨b1, b2⟩ := capture_reset t0 es ht hn
  obtain ⟨sb, _, sf, sc, sh1, sh2, sc1, sc2, sd, sB⟩ := hs
  obtain ⟨tb, _, tf, tc, th1, th2, tc1, tc2, td, tB⟩ := ht
  obtain ⟨_, _, p3, p4⟩ := capture_spec s0 es hlen sb sh1 sh2
  obtain ⟨_, _, q3, q4⟩ := capture_spec t0 es hlen tb th1 th2
  obtain ⟨f1, f2, f3, f4, f5, f6⟩ := capture_frame s0 es
  obtain ⟨g1, g2, g3, g4, g5, g6⟩ := capture_frame t0 es
  refine ⟨a1.trans b1.symm, fun i hi => (a2 i hi).trans (b2 i hi).symm, ?_, ?_, ?_, ?_,
    p3.trans q3.symm, p4.trans q4.symm, ?_, ?_⟩
  · rw [f1, g1, sf, tf]
  · rw [f2, g2, sc, tc]
  · rw [f3, g3, sd, td]
  · rw [f4, g4, sB, tB]
  · rw [f5, g5, sc1, tc1]
  · rw [f6, g6, sc2, tc2]

/-- The timer is not part of the frame. -/
theorem sameFrame_timer (s t : State) (w f w1 f1 : Nat) (h : SameFrame s t) :
    SameFrame { s with weigand_counter := w, flagDone := f }
      { t with weigand_counter := w1, flagDone := f1 } := h

theorem recordOf_congr (x y : State) (h1 : x.bitCount = y.bitCount)
    (h2 : x.facilityCode = y.facilityCode) (h3 : x.cardNumber = y.cardNumber)
    (h4 : x.cardChunk1 = y.cardChunk1) (h5 : x.cardChunk2 = y.cardChunk2)
    (h6 : x.dataStreamBIN = y.dataStreamBIN) : recordOf x = recordOf y := by
  simp only [recordOf, Record.mk.injEq]
  exact ⟨h1, h2, h3, h4, h5, h6⟩

/-- Two states that hold the same frame of at most `MAX_BITS` bits are decoded to the
same record. -/
theorem decode_sameFrame (s t s1 t1 : State) (h : SameFrame s t)
    (hb : s.bitCount ≤ MAX_BITS) (hs : getDataStream s = some s1)
    (ht : getDataStream t = some t1) :
    recordOf (getFacilityCodeCardNumber (getCardValues s1)) =
      recordOf (getFacilityCodeCardNumber (getCardValues t1)) := by
  obtain ⟨e1, e2, e3, e4, e5, _, e7, e8, e9, e10⟩ := h
  have hs255 : s.bitCount ≤ 255 := by unfold MAX_BITS at hb; omega
  have ht255 : t.bitCount ≤ 255 := by rw [← e1]; exact hs255
  rw [getDataStream_eq s hs255] at hs
  rw [getDataStream_eq t ht255] at ht
  simp only [Option.some.injEq] at hs ht
  have hD : shiftInBits s.databits 0 s.bitCount s.dataStream =
      shiftInBits t.databits 0 t.bitCount t.dataStream := by
    rw [← e1, ← e5]
    exact shiftInBits_congr _ _ _ _ _ (fun i _ hi => e2 i (by omega))
  have x1 : s1.bitCount = t1.bitCount := by rw [← hs, ← ht]; exact e1
  have x2 : ∀ i, i < MAX_BITS → s1.databits i = t1.databits i := by
    rw [← hs, ← ht]; exact e2
  have x3 : s1.facilityCode = t1.facilityCode := by rw [← hs, ← ht]; exact e3
  have x4 : s1.cardNumber = t1.cardNumber := by rw [← hs, ← ht]; exact e4
  have x6 : s1.dataStreamBIN = t1.dataStreamBIN := by
    rw [← hs, ← ht]
    simp only []
    rw [hD, e1]
  have x7 : s1.bitHolder1 = t1.bitHolder1 := by rw [← hs, ← ht]; exact e7
  have x8 : s1.bitHolder2 = t1.bitHolder2 := by rw [← hs, ← ht]; exact e8
  have x9 : s1.cardChunk1 = t1.cardChunk1 := by rw [← hs, ← ht]; exact e9
  have x10 : s1.cardChunk2 = t1.cardChunk2 := by rw [← hs, ← ht]; exact e10
  obtain ⟨c1, c2⟩ := getCardValues_congr s1 t1 x1 x7 x8 x9 x10
  obtain ⟨_, _, a3, a4, a5, a6, _, a8, _⟩ := getCardValues_frame s1
  obtain ⟨_, _, b3, b4, b5, b6, _, b8, _⟩ := getCardValues_frame t1
  obtain ⟨d1, d2⟩ := getFacilityCodeCardNumber_congr (getCardValues s1) (getCardValues t1)
    (by rw [a3, b3]; exact x1) (by rw [a4, b4]; exact x2) (by rw [a5, b5]; exact x3)
    (by rw [a6, b6]; exact x4)
  obtain ⟨p1, _, _, p4, _, _, p7, p8, _⟩ := getFacilityCodeCardNumber_frame (getCardValues s1)
  obtain ⟨q1, _, _, q4, _, _, q7, q8, _⟩ := getFacilityCodeCardNumber_frame (getCardValues t1)
  exact recordOf_congr _ _ (by rw [p1, q1, a3, b3]; exact x1) d1 d2
    (by rw [p7, q7]; exact c1) (by rw [p8, q8]; exact c2) (by rw [p4, q4, a8, b8]; exact x6)

/-- The reporting calls depend on the record only. -/
theorem report_congr (e : Bool) (x y : State) (h : recordOf x = recordOf y) :
    report e x = report e y := by
  rw [report_eq, report_eq, h]

/-- A frame cycle on 1 to `MAX_BITS` events from a reset state returns: the frame is
decoded after the last of the `WEIGAND_WAIT_TIME` passes has set `flagDone`. -/
theorem frameCycle_reset (e : Bool) (s0 : State) (es : List Event) (h0 : IsReset s0)
    (h1 : 1 ≤ es.length) (h2 : es.length ≤ MAX_BITS) :
    ∃ s1, getDataStream { capture s0 es with weigand_counter := 0, flagDone := 1 } = some s1 ∧
      s1.bitCount = es.length ∧
      frameCycle e s0 es = some (cleanup (getFacilityCodeCardNumber (getCardValues s1)),
        report e (getFacilityCodeCardNumber (getCardValues s1))) := by
  have hb : (capture s0 es).bitCount = es.length := (capture_reset s0 es h0 h2).1
  obtain ⟨hf, hw⟩ := capture_timer s0 es (List.ne_nil_of_length_pos (by omega))
  obtain ⟨s1, g1, g2, g3⟩ := processFrame_returns e
    { capture s0 es with weigand_counter := 0, flagDone := 1 }
    (by show (capture s0 es).bitCount ≤ 255; rw [hb]; unfold MAX_BITS at h2; omega)
  refine ⟨s1, g1, g2.trans hb, ?_⟩
  rw [frameCycle, passes_timeout e (capture s0 es) hf hw (by rw [hb]; exact h1), g3]

/-! ## The chunk encoding keeps every frame bit -/

/-- Bit `j` of `cardChunk1` after the loop of `case 37`: bit 13 cleared, the other bits
below 20 copied from `bitHolder1` nine places up. -/
theorem countDown37_cardChunk1 (n : Nat) (s : State) (hs : s.cardChunk1 < WORD) (j : Nat) :
    ((countDown cardValuesBody37 n s).cardChunk1).testBit j =
      if j < n ∧ j < 32 then (if j = 13 then false else s.bitHolder1.testBit (j + 9))
      else s.cardChunk1.testBit j := by
  have hv : ∀ (h1 i : Nat), decide ((if i = 13 then 0 else bitRead h1 (i + 9)) ≠ 0) =
      (if i = 13 then false else h1.testBit (i + 9)) := by
    intro h1 i
    split_ifs
    · simp
    · exact bitRead_ne_zero _ _
  induction n generalizing s with
  | zero => simp [countDown]
  | succ n ih =>
    rw [countDown, ih _ (by rw [cardValuesBody37_cardChunk1]; exact bitWrite_lt _ _ _ hs)]
    rw [(cardValuesBody37_frame s n).1, cardValuesBody37_cardChunk1,
      testBit_bitWrite _ _ _ _ hs, hv]
    by_cases h1 : j < n ∧ j < 32
    · have h2 : j < n + 1 ∧ j < 32 := ⟨by omega, h1.2⟩
      rw [if_pos h1, if_pos h2]
    · rw [if_neg h1]
      by_cases h2 : j = n ∧ n < 32
      · obtain ⟨rfl, h3⟩ := h2
        have h4 : j < j + 1 ∧ j < 32 := ⟨by omega, h3⟩
        rw [if_pos ⟨rfl, h3⟩, if_pos h4]
      · have h3 : ¬ (j < n + 1 ∧ j < 32) := by omega
        rw [if_neg h2, if_neg h3]

/-- The second chunk after the loop of `case 37` is the one the shared loop body leaves
with the constants 9, 15 and 15. -/
theorem countDown37_cardChunk2 (n : Nat) (s : State) :
    (countDown cardValuesBody37 n s).cardChunk2 =
      (countDown (cardValuesBody 0 0 0 9 15 15) n s).cardChunk2 := by
  have h := countDown_rel cardValuesBody37 (cardValuesBody 0 0 0 9 15 15)
    (fun a b : State => a.bitHolder1 = b.bitHolder1 ∧ a.bitHolder2 = b.bitHolder2 ∧
      a.cardChunk2 = b.cardChunk2)
    (fun x y i ⟨e1, e2, e3⟩ => by
      show (cardValuesBody37 x i).bitHolder1 = (cardValuesBody 0 0 0 9 15 15 y i).bitHolder1 ∧
        (cardValuesBody37 x i).bitHolder2 = (cardValuesBody 0 0 0 9 15 15 y i).bitHolder2 ∧
        (cardValuesBody37 x i).cardChunk2 = (cardValuesBody 0 0 0 9 15 15 y i).cardChunk2
      rw [(cardValuesBody37_frame x i).1, (cardValuesBody37_frame x i).2.1,
        (cardValuesBody_frame 0 0 0 9 15 15 y i).1,
        (cardValuesBody_frame 0 0 0 9 15 15 y i).2.1,
        cardValuesBody37_cardChunk2 0 0 0, cardValuesBody_cardChunk2,
        cardValuesBody_cardChunk2, e1, e2, e3]
      exact ⟨rfl, rfl, rfl⟩)
    n s s ⟨rfl, rfl, rfl⟩
  exact h.2.2

/-- The holders can be read back from the chunks that the loop of the cases 26 to 36
leaves: `bitHolder1` has 22 bits, of which the lower `a` are in `cardChunk2` from bit `k`
up and the others in `cardChunk1` from bit 0 up; the `m` bits of `bitHolder2` are the low
bits of `cardChunk2`. -/
theorem holders_of_chunks (hi lo a k n m : Nat) (hk : 1 ≤ k) (han : a ≤ n)
    (hak : a + k ≤ 32) (hlo : 22 ≤ a + lo) (hlh : lo < hi) (hln : lo ≤ n) (hl32 : lo ≤ 32)
    (hmk : m ≤ k) (hmn : m ≤ n) (s t : State)
    (hs1 : s.bitHolder1 < 2 ^ 22) (ht1 : t.bitHolder1 < 2 ^ 22)
    (hs2 : s.bitHolder2 < 2 ^ m) (ht2 : t.bitHolder2 < 2 ^ m)
    (hsc1 : s.cardChunk1 < WORD) (htc1 : t.cardChunk1 < WORD)
    (hsc2 : s.cardChunk2 < WORD) (htc2 : t.cardChunk2 < WORD)
    (e1 : (countDown (cardValuesBody hi lo a a k k) n s).cardChunk1 =
      (countDown (cardValuesBody hi lo a a k k) n t).cardChunk1)
    (e2 : (countDown (cardValuesBody hi lo a a k k) n s).cardChunk2 =
      (countDown (cardValuesBody hi lo a a k k) n t).cardChunk2) :
    s.bitHolder1 = t.bitHolder1 ∧ s.bitHolder2 = t.bitHolder2 := by
  constructor
  · apply Nat.eq_of_testBit_eq
    intro j
    by_cases hj : 22 ≤ j
    · rw [testBit_of_lt_two_pow _ 22 j hs1 hj, testBit_of_lt_two_pow _ 22 j ht1 hj]
    · by_cases hja : j < a
      · have h := congrArg (fun v => Nat.testBit v (j + k)) e2
        simp only [] at h
        rw [countDown_cardChunk2 _ _ _ _ _ _ hk _ _ hsc2,
          countDown_cardChunk2 _ _ _ _ _ _ hk _ _ htc2,
          if_pos (show j + k < 32 ∧ k ≤ j + k ∧ j + k - k < a ∧ j + k - k < n by omega),
          if_pos (show j + k < 32 ∧ k ≤ j + k ∧ j + k - k < a ∧ j + k - k < n by omega),
          Nat.add_sub_cancel] at h
        exact h
      · have h := congrArg (fun v => Nat.testBit v (j - a)) e1
        simp only [] at h
        rw [countDown_cardChunk1 _ _ _ _ _ _ _ _ hsc1, countDown_cardChunk1 _ _ _ _ _ _ _ _ htc1,
          if_pos (show j - a < n ∧ j - a < 32 by omega),
          if_pos (show j - a < n ∧ j - a < 32 by omega),
          if_neg (show ¬ (j - a = hi ∨ j - a = lo) by omega),
          if_neg (show ¬ (j - a = hi ∨ j - a = lo) by omega),
          if_neg (show ¬ (j - a > lo) by omega), if_neg (show ¬ (j - a > lo) by omega),
          Nat.sub_add_cancel (show a ≤ j by omega)] at h
        exact h
  · apply Nat.eq_of_testBit_eq
    intro j
    by_cases hj : m ≤ j
    · rw [testBit_of_lt_two_pow _ m j hs2 hj, testBit_of_lt_two_pow _ m j ht2 hj]
    · have h := congrArg (fun v => Nat.testBit v j) e2
      simp only [] at h
      rw [countDown_cardChunk2 _ _ _ _ _ _ hk _ _ hsc2,
        countDown_cardChunk2 _ _ _ _ _ _ hk _ _ htc2,
        if_neg (show ¬ (j < 32 ∧ k ≤ j ∧ j - k < a ∧ j - k < n) by omega),
        if_neg (show ¬ (j < 32 ∧ k ≤ j ∧ j - k < a ∧ j - k < n) by omega),
        if_pos (show j < 32 ∧ j < k ∧ j < n by omega),
        if_pos (show j < 32 ∧ j < k ∧ j < n by omega)] at h
      exact h

/-- The holders can be read back from the chunks that the loop of `case 37` leaves. -/
theorem holders_of_chunks37 (s t : State)
    (hs1 : s.bitHolder1 < 2 ^ 22) (ht1 : t.bitHolder1 < 2 ^ 22)
    (hs2 : s.bitHolder2 < 2 ^ 15) (ht2 : t.bitHolder2 < 2 ^ 15)
    (hsc1 : s.cardChunk1 < WORD) (htc1 : t.cardChunk1 < WORD)
    (hsc2 : s.cardChunk2 < WORD) (htc2 : t.cardChunk2 < WORD)
    (e1 : (countDown cardValuesBody37 20 s).cardChunk1 =
      (countDown cardValuesBody37 20 t).cardChunk1)
    (e2 : (countDown cardValuesBody37 20 s).cardChunk2 =
      (countDown cardValuesBody37 20 t).cardChunk2) :
    s.bitHolder1 = t.bitHolder1 ∧ s.bitHolder2 = t.bitHolder2 := by
  rw [countDown37_cardChunk2, countDown37_cardChunk2] at e2
  constructor
  · apply Nat.eq_of_testBit_eq
    intro j
    by_cases hj : 22 ≤ j
    · rw [testBit_of_lt_two_pow _ 22 j hs1 hj, testBit_of_lt_two_pow _ 22 j ht1 hj]
    · by_cases hja : j < 9
      · have h := congrArg (fun v => Nat.testBit v (j + 15)) e2
        simp only [] at h
        rw [countDown_cardChunk2 _ _ _ _ _ _ (by decide) _ _ hsc2,
          countDown_cardChunk2 _ _ _ _ _ _ (by decide) _ _ htc2,
          if_pos (show j + 15 < 32 ∧ 15 ≤ j + 15 ∧ j + 15 - 15 < 9 ∧ j + 15 - 15 < 20 by omega),
          if_pos (show j + 15 < 32 ∧ 15 ≤ j + 15 ∧ j + 15 - 15 < 9 ∧ j + 15 - 15 < 20 by omega),
          Nat.add_sub_cancel] at h
        exact h
      · have h := congrArg (fun v => Nat.testBit v (j - 9)) e1
        simp only [] at h
        rw [countDown37_cardChunk1 _ _ hsc1, countDown37_cardChunk1 _ _ htc1,
          if_pos (show j - 9 < 20 ∧ j - 9 < 32 by omega),
          if_pos (show j - 9 < 20 ∧ j - 9 < 32 by omega),
          if_neg (show ¬ (j - 9 = 13) by omega), if_neg (show ¬ (j - 9 = 13) by omega),
          Nat.sub_add_cancel (show 9 ≤ j by omega)] at h
        exact h
  · apply Nat.eq_of_testBit_eq
    intro j
    by_cases hj : 15 ≤ j
    · rw [testBit_of_lt_two_pow _ 15 j hs2 hj, testBit_of_lt_two_pow _ 15 j ht2 hj]
    · have h := congrArg (fun v => Nat.testBit v j) e2
      simp only [] at h
      rw [countDown_cardChunk2 _ _ _ _ _ _ (by decide) _ _ hsc2,
        countDown_cardChunk2 _ _ _ _ _ _ (by decide) _ _ htc2,
        if_neg (show ¬ (j < 32 ∧ 15 ≤ j ∧ j - 15 < 9 ∧ j - 15 < 20) by omega),
        if_neg (show ¬ (j < 32 ∧ 15 ≤ j ∧ j - 15 < 9 ∧ j - 15 < 20) by omega),
        if_pos (show j < 32 ∧ j < 15 ∧ j < 20 by omega),
        if_pos (show j < 32 ∧ j < 15 ∧ j < 20 by omega)] at h
      exact h

theorem frameValue_cons (e : Event) (es : List Event) :
    frameValue (e :: es) = e.bit * 2 ^ es.length + frameValue es := by
  have h : msbValue (frameBit (e :: es)) 1 es.length = msbValue (frameBit es) 0 es.length := by
    have key : ∀ n lo, msbValue (frameBit (e :: es)) (lo + 1) n = msbValue (frameBit es) lo n := by
      intro n
      induction n with
      | zero => intro lo; rfl
      | succ n ih => intro lo; simp only [msbValue, frameBit, ih]
    exact key _ 0
  simp only [frameValue, List.length_cons, msbValue, frameBit]
  rw [h]

theorem frameValue_lt (es : List Event) : frameValue es < 2 ^ es.length :=
  msbValue_lt _ _ _ (fun i _ _ => frameBit_le es i)

/-- Two frames of the same length with the same value are the same sequence of bits. -/
theorem frameValue_injective (es es1 : List Event) (hl : es.length = es1.length)
    (hv : frameValue es = frameValue es1) : es = es1 := by
  induction es generalizing es1 with
  | nil =>
    cases es1 with
    | nil => rfl
    | cons _ _ => simp at hl
  | cons e es ih =>
    cases es1 with
    | nil => simp at hl
    | cons e1 es1 =>
      have hl1 : es.length = es1.length := by simpa using hl
      rw [frameValue_cons, frameValue_cons, ← hl1] at hv
      have b1 := frameValue_lt es
      have b2 := frameValue_lt es1
      rw [← hl1] at b2
      cases e <;> cases e1 <;> simp only [Event.bit, Nat.zero_mul, Nat.one_mul,
        Nat.zero_add] at hv
      · rw [ih es1 hl1 hv]
      · omega
      · omega
      · rw [ih es1 hl1 (by omega)]

/-- For each length from 26 to 37 the holders of a captured frame can be read back from
the chunks that `getCardValues` leaves. -/
theorem getCardValues_injective (L : Nat) (hL1 : 26 ≤ L) (hL2 : L ≤ 37) (s t : State)
    (hsb : s.bitCount = L) (htb : t.bitCount = L)
    (hs1 : s.bitHolder1 < 2 ^ 22) (ht1 : t.bitHolder1 < 2 ^ 22)
    (hs2 : s.bitHolder2 < 2 ^ (L - 22)) (ht2 : t.bitHolder2 < 2 ^ (L - 22))
    (hsc1 : s.cardChunk1 = 0) (htc1 : t.cardChunk1 = 0)
    (hsc2 : s.cardChunk2 = 0) (htc2 : t.cardChunk2 = 0)
    (e1 : (getCardValues s).cardChunk1 = (getCardValues t).cardChunk1)
    (e2 : (getCardValues s).cardChunk2 = (getCardValues t).cardChunk2) :
    s.bitHolder1 = t.bitHolder1 ∧ s.bitHolder2 = t.bitHolder2 := by
  have b1 : s.cardChunk1 < WORD := by rw [hsc1]; decide
  have b2 : t.cardChunk1 < WORD := by rw [htc1]; decide
  have b3 : s.cardChunk2 < WORD := by rw [hsc2]; decide
  have b4 : t.cardChunk2 < WORD := by rw [htc2]; decide
  interval_cases L <;> simp only [getCardValues, hsb, htb] at e1 e2
  · exact holders_of_chunks 13 2 20 4 20 4 (by decide) (by decide) (by decide)
      (by decide) (by decide) (by decide) (by decide) (by decide) (by decide) s t hs1 ht1
      hs2 ht2 b1 b2 b3 b4 e1 e2
  · exact holders_of_chunks 13 3 19 5 20 5 (by decide) (by decide) (by decide)
      (by decide) (by decide) (by decide) (by decide) (by decide) (by decide) s t hs1 ht1
      hs2 ht2 b1 b2 b3 b4 e1 e2
  · exact holders_of_chunks 13 4 18 6 20 6 (by decide) (by decide) (by decide)
      (by decide) (by decide) (by decide) (by decide) (by decide) (by decide) s t hs1 ht1
      hs2 ht2 b1 b2 b3 b4 e1 e2
  · exact holders_of_chunks 13 5 17 7 20 7 (by decide) (by decide) (by decide)
      (by decide) (by decide) (by decide) (by decide) (by decide) (by decide) s t hs1 ht1
      hs2 ht2 b1 b2 b3 b4 e1 e2
  · exact holders_of_chunks 13 6 16 8 20 8 (by decide) (by decide) (by decide)
      (by decide) (by decide) (by decide) (by decide) (by decide) (by decide) s t hs1 ht1
      hs2 ht2 b1 b2 b3 b4 e1 e2
  · exact holders_of_chunks 13 7 15 9 20 9 (by decide) (by decide) (by decide)
      (by decide) (by decide) (by decide) (by decide) (by decide) (by decide) s t hs1 ht1
      hs2 ht2 b1 b2 b3 b4 e1 e2
  · exact holders_of_chunks 13 8 14 10 20 10 (by decide) (by decide) (by decide)
      (by decide) (by decide) (by decide) (by decide) (by decide) (by decide) s t hs1 ht1
      hs2 ht2 b1 b2 b3 b4 e1 e2
  · exact holders_of_chunks 15 11 17 15 20 11 (by decide) (by decide) (by decide)
      (by decide) (by decide) (by decide) (by decide) (by decide) (by decide) s t hs1 ht1
      hs2 ht2 b1 b2 b3 b4 e1 e2
  · exact holders_of_chunks 13 10 12 12 20 12 (by decide) (by decide) (by decide)
      (by decide) (by decide) (by decide) (by decide) (by decide) (by decide) s t hs1 ht1
      hs2 ht2 b1 b2 b3 b4 e1 e2
  · exact holders_of_chunks 13 11 11 13 20 13 (by decide) (by decide) (by decide)
      (by decide) (by decide) (by decide) (by decide) (by decide) (by decide) s t hs1 ht1
      hs2 ht2 b1 b2 b3 b4 e1 e2
  · exact holders_of_chunks 17 16 14 18 36 14 (by decide) (by decide) (by decide)
      (by decide) (by decide) (by decide) (by decide) (by decide) (by decide) s t hs1 ht1
      hs2 ht2 b1 b2 b3 b4 e1 e2
  · exact holders_of_chunks37 s t hs1 ht1 hs2 ht2 b1 b2 b3 b4 e1 e2

/-! ## Events in the middle of a frame, hexadecimal digits -/

/-- Events served in a state that already counts `bitCount` bits write no cell below
`bitCount`. -/
theorem capture_below (s : State) (es : List Event) (hlen : s.bitCount + es.length < WORD) :
    (capture s es).bitCount = s.bitCount + es.length ∧
    ∀ i, i < s.bitCount → (capture s es).databits i = s.databits i := by
  induction es using List.reverseRecOn with
  | nil => exact ⟨rfl, fun _ _ => rfl⟩
  | append_singleton es e ih =>
    have hl : s.bitCount + (es.length + 1) < WORD := by simpa using hlen
    obtain ⟨ihb, ihd⟩ := ih (by omega)
    rw [capture_snoc]
    have hm : ((capture s es).bitCount + 1) % WORD = s.bitCount + (es ++ [e]).length := by
      rw [ihb, List.length_append, List.length_singleton]
      exact Nat.mod_eq_of_lt (by omega)
    cases e with
    | ZERO =>
      refine ⟨(ISR_INT0_bitCount _).trans hm, fun i hi => ?_⟩
      rw [show handle (capture s es) Event.ZERO = ISR_INT0 (capture s es) from rfl,
        ISR_INT0_databits]
      exact ihd i hi
    | ONE =>
      refine ⟨(ISR_INT1_bitCount _).trans hm, fun i hi => ?_⟩
      rw [show handle (capture s es) Event.ONE = ISR_INT1 (capture s es) from rfl,
        ISR_INT1_databits, Function.update_noteq (by omega)]
      exact ihd i hi

/-- The chunks of a 26-bit frame captured from a reset state. -/
theorem chunks_of_26_bits (s0 : State) (es : List Event) (h0 : IsReset s0)
    (hlen : es.length = 26) :
    (getCardValues (capture s0 es)).cardChunk1 = 2 ^ 13 + 2 ^ 2 + frameValue es / 2 ^ 24 ∧
    (getCardValues (capture s0 es)).cardChunk2 = frameValue es % 2 ^ 24 := by
  obtain ⟨hb, g1, g2, g3, g4, g5⟩ :=
    capture_holders s0 es h0 (by omega) (by omega)
  rw [g3]
  rw [hlen] at hb g2
  simp only [getCardValues, hb]
  rw [hlen]
  exact regular_chunks 4 (by decide) (by decide) _ g1 g2 g4 g5

/-- The chunks of the example frame of §8. -/
theorem example_chunks :
    (getCardValues (capture initState exampleFrame)).cardChunk1 = 0x2004 ∧
    (getCardValues (capture initState exampleFrame)).cardChunk2 = 0x0604EA := by
  have h := chunks_of_26_bits initState exampleFrame initState_isReset (by decide)
  have hv : frameValue exampleFrame = 394474 := by decide
  rw [hv] at h
  exact h

/-! ## The counter loop with its counter visible, frames outside the chunk encoder -/

/-- The loop with its counter visible is the loop of `getDataStream`: same state, same
divergence, for every fuel. -/
theorem dataStreamLoopTrace_state (fuel i runs : Nat) (w : Bool) (s : State) :
    (dataStreamLoopTrace fuel i runs w s).map (fun r => r.1) = dataStreamLoop fuel i s := by
  induction fuel generalizing i runs w s with
  | zero => rfl
  | succ fuel ih =>
    rw [dataStreamLoopTrace, dataStreamLoop]
    split_ifs
    · exact ih _ _ _ _
    · rfl

/-- On a capture of at most 255 bits the counter loop, entered at `i` with `k` cells left,
ends at the exit test with `i = bitCount`, after `k` more runs of its body and with no
wrap of the counter. -/
theorem dataStreamLoopTrace_eq (k : Nat) (fuel i runs : Nat) (w : Bool) (s : State)
    (hk : i + k = s.bitCount) (hb : s.bitCount ≤ 255) (hf : k < fuel) :
    dataStreamLoopTrace fuel i runs w s = some
      ({ s with
        dataStream := List.foldl (fun a j => ((a <<< 1) % WORD) ||| s.databits j) s.dataStream
          (List.range' i k) }, s.bitCount, runs + k, w) := by
  induction k generalizing fuel i runs s with
  | zero =>
    cases fuel with
    | zero => omega
    | succ fuel =>
      have h1 : ¬ i < s.bitCount := by omega
      have h2 : i = s.bitCount := by omega
      rw [dataStreamLoopTrace, if_neg h1, h2]
      rfl
  | succ k ih =>
    cases fuel with
    | zero => omega
    | succ fuel =>
      have h1 : i < s.bitCount := by omega
      have h2 : (i + 1) % 256 = i + 1 := by omega
      have h3 : (w || decide (256 ≤ i + 1)) = w := by
        have : ¬ 256 ≤ i + 1 := by omega
        simp [this]
      rw [dataStreamLoopTrace, if_pos h1, h2, h3,
        ih fuel (i + 1) (runs + 1) _ (by simp; omega) (by simpa using hb) (by omega)]
      simp [List.range'_succ]
      omega

/-- The decoded fields of a 26-bit frame after its frame cycle from a reset state. -/
theorem frameCycle_26_bits (e : Bool) (s0 : State) (es : List Event) (h0 : IsReset s0)
    (hlen : es.length = 26) :
    ∃ d, frameCycle e s0 es = some (cleanup d, report e d) ∧ d.bitCount = 26 ∧
      d.facilityCode = msbValue (frameBit es) 1 8 ∧
      d.cardNumber = msbValue (frameBit es) 9 16 := by
  have hn : es.length ≤ MAX_BITS := by rw [hlen]; decide
  obtain ⟨s1, hg, hb1, hcyc⟩ := frameCycle_reset e s0 es h0 (by omega) hn
  obtain ⟨_, _, g3, _, _, _, _, _, _, g10, g11⟩ := getDataStream_some _ _ hg
  obtain ⟨_, hd⟩ := capture_reset s0 es h0 hn
  obtain ⟨f1, f2, _⟩ := capture_frame s0 es
  obtain ⟨_, _, c3, c4, c5, c6, _⟩ := getCardValues_frame s1
  have hb : (getCardValues s1).bitCount = 26 := by rw [c3, hb1, hlen]
  have hdb : ∀ i, i < MAX_BITS → (getCardValues s1).databits i = frameBit es i := by
    intro i hi
    rw [c4, g3]
    exact hd i hi
  have hfc : (getCardValues s1).facilityCode = 0 := by
    rw [c5, g10]
    exact f1.trans h0.2.2.1
  have hcn : (getCardValues s1).cardNumber = 0 := by
    rw [c6, g11]
    exact f2.trans h0.2.2.2.1
  have hle : ∀ i, i < MAX_BITS → (getCardValues s1).databits i ≤ 1 := by
    intro i hi
    rw [hdb i hi]
    exact frameBit_le es i
  refine ⟨_, hcyc, ?_, ?_, ?_⟩
  · rw [(getFacilityCodeCardNumber_frame _).1, hb]
  · simp only [getFacilityCodeCardNumber, hb, hfc]
    rw [shiftInBits_zero _ 1 9 (fun i _ h => hle i (by unfold MAX_BITS; omega)) (by decide)]
    exact msbValue_congr _ _ _ _ (fun i _ h => hdb i (by unfold MAX_BITS; omega))
  · simp only [getFacilityCodeCardNumber, hb, hcn]
    rw [shiftInBits_zero _ 9 25 (fun i _ h => hle i (by unfold MAX_BITS; omega)) (by decide)]
    exact msbValue_congr _ _ _ _ (fun i _ h => hdb i (by unfold MAX_BITS; omega))

/-! ## The claims -/

/-- C1: for each of the seven lengths of the §4.3 table, on a frame of that length whose
cells hold 0 or 1 and with both accumulators 0 on entry, `getFacilityCodeCardNumber`
leaves in `facilityCode` the most-significant-bit-first value of the frame bits of the
facility range and in `cardNumber` that of the bits of the card range. -/
theorem C1_format_decoder (s : State) (L flo fhi clo chi : Nat)
    (hrow : (L, (flo, fhi), (clo, chi)) ∈ formatTable)
    (hL : s.bitCount = L) (hbits : ∀ i, i < L → s.databits i ≤ 1)
    (hf : s.facilityCode = 0) (hc : s.cardNumber = 0) :
    (getFacilityCodeCardNumber s).facilityCode = msbValue s.databits flo (fhi - flo) ∧
    (getFacilityCodeCardNumber s).cardNumber = msbValue s.databits clo (chi - clo) := by
  simp only [formatTable, List.mem_cons, Prod.mk.injEq, List.mem_singleton, List.not_mem_nil,
    or_false] at hrow
  rcases hrow with h | h | h | h | h | h | h <;>
    obtain ⟨rfl, ⟨rfl, rfl⟩, rfl, rfl⟩ := h <;>
    simp only [getFacilityCodeCardNumber, hL, hf, hc] <;>
    exact ⟨shiftInBits_zero _ _ _ (fun i _ b => hbits i (by omega)) (by decide),
      shiftInBits_zero _ _ _ (fun i _ b => hbits i (by omega)) (by decide)⟩

/-- C1 at the example frame of §8: facility code 3 and card number 629. -/
theorem C1_format_decoder_witness :
    (26, (1, 9), (9, 25)) ∈ formatTable ∧
    (getFacilityCodeCardNumber (capture initState exampleFrame)).facilityCode = 3 ∧
    (getFacilityCodeCardNumber (capture initState exampleFrame)).cardNumber = 629 := by
  obtain ⟨hb, hd⟩ := capture_reset initState exampleFrame initState_isReset (by decide)
  obtain ⟨hfc, hcn, _⟩ := capture_frame initState exampleFrame
  have hbits : ∀ i, i < 26 → (capture initState exampleFrame).databits i ≤ 1 := by
    intro i hi
    rw [hd i (by unfold MAX_BITS; omega)]
    exact frameBit_le _ _
  have h := C1_format_decoder (capture initState exampleFrame) 26 1 9 9 25 (by decide) hb
    hbits hfc hcn
  have e1 : msbValue (capture initState exampleFrame).databits 1 (9 - 1) = 3 := by
    rw [msbValue_congr _ (frameBit exampleFrame) 1 (9 - 1)
      (fun i _ h2 => hd i (by unfold MAX_BITS; omega))]
    decide
  have e2 : msbValue (capture initState exampleFrame).databits 9 (25 - 9) = 629 := by
    rw [msbValue_congr _ (frameBit exampleFrame) 9 (25 - 9)
      (fun i _ h2 => hd i (by unfold MAX_BITS; omega))]
    decide
  exact ⟨by decide, h.1.trans e1, h.2.trans e2⟩

/-- C3: from the reset state, after `n ≤ MAX_BITS` events `bitCount = n` and cell `i` of
`databits` holds the bit of the event that arrived in position `i`, for every `i < n`. -/
theorem C3_capture_in_arrival_order (s0 : State) (es : List Event) (h0 : IsReset s0)
    (hn : es.length ≤ MAX_BITS) :
    (capture s0 es).bitCount = es.length ∧
    ∀ i (hi : i < es.length), (capture s0 es).databits i = (es.get ⟨i, hi⟩).bit := by
  obtain ⟨c1, c2⟩ := capture_reset s0 es h0 hn
  exact ⟨c1, fun i hi => by rw [c2 i (by omega), frameBit_eq_get es i hi]⟩

/-- C3 at the example frame of §8: 26 bits captured, bit 7 a one and bit 9 a zero. -/
theorem C3_capture_in_arrival_order_witness :
    IsReset initState ∧ exampleFrame.length ≤ MAX_BITS ∧
    (capture initState exampleFrame).bitCount = 26 ∧
    (capture initState exampleFrame).databits 7 = 1 ∧
    (capture initState exampleFrame).databits 9 = 0 := by
  have h := C3_capture_in_arrival_order initState exampleFrame initState_isReset (by decide)
  exact ⟨initState_isReset, by decide, h.1, h.2 7 (by decide), h.2 9 (by decide)⟩

/-- C4: for each regular length `L` and every `L`-bit frame captured from the reset state,
with `V` the most-significant-bit-first value of the frame, `getCardValues` leaves
`cardChunk1 = 2^13 + 2^(L-24) + V / 2^24` and `cardChunk2 = V mod 2^24`. -/
theorem C4_chunk_encoding (s0 : State) (es : List Event) (L : Nat) (h0 : IsReset s0)
    (hL : L ∈ [26, 27, 28, 29, 30, 31, 32, 34, 35]) (hlen : es.length = L) :
    (getCardValues (capture s0 es)).cardChunk1 = 2 ^ 13 + 2 ^ (L - 24) + frameValue es / 2 ^ 24 ∧
    (getCardValues (capture s0 es)).cardChunk2 = frameValue es % 2 ^ 24 := by
  have hlo : 22 ≤ es.length := by
    rw [hlen]; simp only [List.mem_cons, List.mem_singleton, List.not_mem_nil, or_false] at hL
    omega
  have hhi : es.length ≤ 54 := by
    rw [hlen]; simp only [List.mem_cons, List.mem_singleton, List.not_mem_nil, or_false] at hL
    omega
  obtain ⟨hb, g1, g2, g3, g4, g5⟩ := capture_holders s0 es h0 hlo hhi
  rw [g3]
  rw [hlen] at hb g2
  simp only [List.mem_cons, List.mem_singleton, List.not_mem_nil, or_false] at hL
  rcases hL with h | h | h | h | h | h | h | h | h <;> subst h <;>
    simp only [getCardValues, hb] <;> rw [hlen]
  · exact regular_chunks 4 (by decide) (by decide) _ g1 g2 g4 g5
  · exact regular_chunks 5 (by decide) (by decide) _ g1 g2 g4 g5
  · exact regular_chunks 6 (by decide) (by decide) _ g1 g2 g4 g5
  · exact regular_chunks 7 (by decide) (by decide) _ g1 g2 g4 g5
  · exact regular_chunks 8 (by decide) (by decide) _ g1 g2 g4 g5
  · exact regular_chunks 9 (by decide) (by decide) _ g1 g2 g4 g5
  · exact regular_chunks 10 (by decide) (by decide) _ g1 g2 g4 g5
  · exact regular_chunks 12 (by decide) (by decide) _ g1 g2 g4 g5
  · exact regular_chunks 13 (by decide) (by decide) _ g1 g2 g4 g5

/-- C4 at the example frame of §8: `cardChunk1 = 0x2004` and `cardChunk2 = 0x0604EA`. -/
theorem C4_chunk_encoding_witness :
    IsReset initState ∧ exampleFrame.length = 26 ∧
    (getCardValues (capture initState exampleFrame)).cardChunk1 = 0x2004 ∧
    (getCardValues (capture initState exampleFrame)).cardChunk2 = 0x0604EA := by
  have h := C4_chunk_encoding initState exampleFrame 26 initState_isReset (by decide)
    (by decide)
  have hv : frameValue exampleFrame = 394474 := by decide
  rw [hv] at h
  exact ⟨initState_isReset, by decide, h.1, h.2⟩

/-- C5 fails on the code for a capture of 256 bits: the state after 256 `ZERO` events has
`flagDone = 0`, `weigand_counter = WEIGAND_WAIT_TIME` and `bitCount = 256 ≥ 1`; its first
2999 idle passes only count down, and the 3000th enters the decoding block and never
returns, so the frame is not decoded. -/
theorem C5_decode_pass_never_returns :
    (capture initState (List.replicate 256 Event.ZERO)).flagDone = 0 ∧
    (capture initState (List.replicate 256 Event.ZERO)).weigand_counter = WEIGAND_WAIT_TIME ∧
    (capture initState (List.replicate 256 Event.ZERO)).bitCount = 256 ∧
    passes true 2999 (capture initState (List.replicate 256 Event.ZERO)) =
      some ({ capture initState (List.replicate 256 Event.ZERO) with weigand_counter := 1 },
        []) ∧
    loop true { capture initState (List.replicate 256 Event.ZERO) with weigand_counter := 1 } =
      none ∧
    passes true WEIGAND_WAIT_TIME (capture initState (List.replicate 256 Event.ZERO)) = none := by
  have hs := capture_spec initState (List.replicate 256 Event.ZERO)
    (by rw [List.length_replicate]; decide) rfl rfl rfl
  have hb : (capture initState (List.replicate 256 Event.ZERO)).bitCount = 256 := by
    rw [hs.1, List.length_replicate]
  obtain ⟨hf, hw⟩ := capture_timer initState (List.replicate 256 Event.ZERO)
    (List.ne_nil_of_length_pos (by rw [List.length_replicate]; decide))
  refine ⟨hf, hw, hb, ?_, ?_, ?_⟩
  · rw [passes_waiting true 2999 _ hf (by rw [hw]; decide) (by rw [hw]; decide), hw]
    rfl
  · exact loop_expiring_diverges true _ hf (by rw [hb])
  · rw [passes_timeout true _ hf hw (by rw [hb]; decide)]
    exact processFrame_diverges _ _ (by simp only [hb]; decide)

/-- C6: for a completed frame of 1 to `MAX_BITS` bits, with `dataStream = 0` on entry and
frame cells holding 0 or 1, `getDataStream` returns and leaves a `dataStreamBIN` of
exactly `bitCount` characters, each of them `0` or `1`. -/
theorem C6_raw_binary_length (s : State) (h1 : 1 ≤ s.bitCount) (h2 : s.bitCount ≤ MAX_BITS)
    (hd : s.dataStream = 0) (hbits : ∀ i, i < s.bitCount → s.databits i ≤ 1) :
    ∃ s1, getDataStream s = some s1 ∧ s1.bitCount = s.bitCount ∧
      s1.dataStreamBIN.length = s.bitCount ∧ ∀ c ∈ s1.dataStreamBIN, c = '0' ∨ c = '1' := by
  have hb : s.bitCount ≤ 255 := by unfold MAX_BITS at h2; omega
  refine ⟨_, getDataStream_eq s hb, rfl, ?_, ?_⟩
  · simp only []
    rw [length_padLoop _ _ _ (by omega), hd, shiftInBits_from_zero _ _ hbits]
    have hlt : msbValue s.databits 0 s.bitCount % WORD < 2 ^ (min s.bitCount 32) := by
      by_cases hc : s.bitCount ≤ 32
      · rw [min_eq_left hc]
        exact Nat.lt_of_le_of_lt (Nat.mod_le _ _)
          (msbValue_lt _ _ _ (fun i _ b => hbits i (by omega)))
      · rw [min_eq_right (by omega)]
        exact Nat.mod_lt _ (by decide)
    have := length_ultoaBIN_le 32 _ (min s.bitCount 32) [] (by omega) hlt
    simp only [List.length_nil, Nat.zero_add] at this
    omega
  · simp only []
    exact binary_padLoop _ _ _ (binary_ultoaBIN _ _ _ (by simp))

/-- C6 at the example frame of §8, whose first bit is 0: 26 binary characters. -/
theorem C6_raw_binary_length_witness :
    (capture initState exampleFrame).databits 0 = 0 ∧
    ∃ s1, getDataStream (capture initState exampleFrame) = some s1 ∧
      s1.dataStreamBIN.length = 26 ∧ ∀ c ∈ s1.dataStreamBIN, c = '0' ∨ c = '1' := by
  obtain ⟨hb, hd⟩ := capture_reset initState exampleFrame initState_isReset (by decide)
  have hlen : exampleFrame.length = 26 := by decide
  have hds := (capture_frame initState exampleFrame).2.2.1
  have hbits : ∀ i, i < (capture initState exampleFrame).bitCount →
      (capture initState exampleFrame).databits i ≤ 1 := by
    intro i hi
    rw [hb, hlen] at hi
    rw [hd i (by unfold MAX_BITS; omega)]
    exact frameBit_le _ _
  obtain ⟨s1, g1, _, g3, g4⟩ := C6_raw_binary_length (capture initState exampleFrame)
    (by rw [hb]; decide) (by rw [hb]; decide) (by rw [hds]; rfl) hbits
  refine ⟨?_, s1, g1, by rw [g3, hb, hlen], g4⟩
  rw [hd 0 (by decide)]
  rfl

/-- C7 fails on the code: `dataStream` keeps the last 32 bits only.  For the 33-bit frame
`1` followed by 32 zeros, cell 0 of `databits` holds 1 but `getDataStream` produces 33
characters `0`. -/
theorem C7_truncated_to_32_bits :
    (capture initState (Event.ONE :: List.replicate 32 Event.ZERO)).bitCount = 33 ∧
    (capture initState (Event.ONE :: List.replicate 32 Event.ZERO)).databits 0 = 1 ∧
    ∃ s1, getDataStream (capture initState (Event.ONE :: List.replicate 32 Event.ZERO)) = some s1 ∧
      s1.dataStreamBIN = List.replicate 33 '0' := by
  obtain ⟨hb, hd⟩ := capture_reset initState
    (Event.ONE :: List.replicate 32 Event.ZERO) initState_isReset (by decide)
  refine ⟨hb, by rw [hd 0 (by decide)]; rfl, _,
    getDataStream_capture _ _ initState_isReset (by decide), ?_⟩
  decide

/-- C8 fails on the code: nothing bounds the capture.  After 101 `ONE` events from the
state `setup` leaves, `bitCount` is 101 and the cell of index `MAX_BITS`, outside
`databits`, has been written. -/
theorem C8_no_bound_on_capture :
    (capture initState (List.replicate 100 Event.ONE)).bitCount = MAX_BITS ∧
    (ISR_INT1 (capture initState (List.replicate 100 Event.ONE))).bitCount = MAX_BITS + 1 ∧
    (ISR_INT0 (capture initState (List.replicate 100 Event.ONE))).bitCount = MAX_BITS + 1 ∧
    (capture initState (List.replicate 100 Event.ONE)).databits MAX_BITS = 0 ∧
    (ISR_INT1 (capture initState (List.replicate 100 Event.ONE))).databits MAX_BITS = 1 := by
  have h := capture_spec initState (List.replicate 100 Event.ONE) (by decide) rfl rfl rfl
  obtain ⟨hb, hd, _, _⟩ := h
  have hb100 : (capture initState (List.replicate 100 Event.ONE)).bitCount = 100 := by
    rw [hb]; simp
  refine ⟨hb100, ?_, ?_, ?_, ?_⟩
  · rw [ISR_INT1_bitCount, hb100]; decide
  · rw [ISR_INT0_bitCount, hb100]; decide
  · rw [hd]; simp [MAX_BITS, initState]
  · rw [ISR_INT1_databits, hb100]; simp [MAX_BITS]

/-- C9 as stated fails: after 23 `ONE` events `bitHolder1` holds 22 one-bits, not the
value of the first 23 frame bits, and `bitHolder2` already holds the 23rd bit. -/
theorem C9_counterexample :
    (capture initState (List.replicate 23 Event.ONE)).bitHolder1 = 4194303 ∧
    (capture initState (List.replicate 23 Event.ONE)).bitHolder2 = 1 ∧
    msbValue (frameBit (List.replicate 23 Event.ONE)) 0 (min 23 23) % WORD = 8388607 ∧
    msbValue (frameBit (List.replicate 23 Event.ONE)) 23 (23 - 23) % WORD = 0 := by
  have h := capture_spec initState (List.replicate 23 Event.ONE) (by decide) rfl rfl rfl
  refine ⟨?_, ?_, by decide, by decide⟩
  · rw [h.2.2.1]; decide
  · rw [h.2.2.2]; decide

/-- C9, amended: while a frame is captured from the reset state, the first 22 captured
bits are shifted into `bitHolder1` and every later bit into `bitHolder2`: after `n`
events (`n` at most `MAX_BITS`, the size of the frame buffer) `bitHolder1` is the
most-significant-bit-first value of frame bits `0 .. min(n,22)-1` and `bitHolder2` that of
frame bits `22 .. n-1`, both modulo `2^32`. -/
theorem C9_holders_split_at_22 (s0 : State) (es : List Event) (h0 : IsReset s0)
    (hn : es.length ≤ MAX_BITS) :
    (capture s0 es).bitHolder1 = msbValue (frameBit es) 0 (min es.length 22) % WORD ∧
    (capture s0 es).bitHolder2 = msbValue (frameBit es) 22 (es.length - 22) % WORD := by
  obtain ⟨hb, _, _, _, h1, h2, _⟩ := h0
  have hlen : es.length < WORD := by unfold MAX_BITS at hn; unfold WORD; omega
  exact (capture_spec s0 es hlen hb h1 h2).2.2

/-- C9, amended, at the example frame of §8: 22 bits in `bitHolder1`, 4 in `bitHolder2`. -/
theorem C9_holders_split_at_22_witness :
    IsReset initState ∧ exampleFrame.length ≤ MAX_BITS ∧
    (capture initState exampleFrame).bitHolder1 = 24654 ∧
    (capture initState exampleFrame).bitHolder2 = 10 := by
  have h := C9_holders_split_at_22 initState exampleFrame initState_isReset (by decide)
  refine ⟨initState_isReset, by decide, ?_, ?_⟩
  · rw [h.1]; decide
  · rw [h.2]; decide

/-- C11: from any reset state (the state left by whatever frame was processed before),
two consecutive frame cycles on the same 1 to `MAX_BITS` events, each being the events
followed by `WEIGAND_WAIT_TIME` passes of `loop`, both return and produce the same
output: the same record `r` (with `bitCount`, `facilityCode`, `cardNumber`, both chunks
and the binary string) is reported by both. -/
theorem C11_same_events_same_record (e : Bool) (s0 : State) (es : List Event)
    (h0 : IsReset s0) (h1 : 1 ≤ es.length) (h2 : es.length ≤ MAX_BITS) :
    ∃ s1 s2 out1 out2 r, frameCycle e s0 es = some (s1, out1) ∧
      frameCycle e s1 es = some (s2, out2) ∧
      Output.csv r ∈ out1 ∧ (∀ o, o ∈ out1 → o.record = r) ∧
      Output.csv r ∈ out2 ∧ (∀ o, o ∈ out2 → o.record = r) ∧
      out1 = out2 ∧ r.bitCount = es.length := by
  obtain ⟨a, ha1, ha2, ha3⟩ := frameCycle_reset e s0 es h0 h1 h2
  obtain ⟨b, hb1, _, hb3⟩ := frameCycle_reset e
    (cleanup (getFacilityCodeCardNumber (getCardValues a))) es (cleanup_isReset _) h1 h2
  have hsame : SameFrame { capture s0 es with weigand_counter := 0, flagDone := 1 }
      { capture (cleanup (getFacilityCodeCardNumber (getCardValues a))) es with
        weigand_counter := 0, flagDone := 1 } :=
    sameFrame_timer _ _ 0 1 0 1 (capture_sameFrame _ _ es h0 (cleanup_isReset _) h2)
  have hrec := decode_sameFrame _ _ a b hsame
    (by show (capture s0 es).bitCount ≤ MAX_BITS
        rw [(capture_reset s0 es h0 h2).1]; exact h2) ha1 hb1
  have hout := report_congr e _ _ hrec
  refine ⟨_, _, _, _, recordOf (getFacilityCodeCardNumber (getCardValues a)), ha3, hb3,
    csv_mem_report _ _, fun o ho => record_of_mem_report e _ o ho, ?_, ?_, hout, ?_⟩
  · rw [← hout]; exact csv_mem_report _ _
  · intro o ho
    rw [← hout] at ho
    exact record_of_mem_report e _ o ho
  · show (getFacilityCodeCardNumber (getCardValues a)).bitCount = es.length
    rw [(getFacilityCodeCardNumber_frame _).1, (getCardValues_frame _).2.2.1, ha2]

/-- C11 on the example frame of §8 presented twice, after a first frame of 30 one bits
has been processed. -/
theorem C11_same_events_same_record_witness :
    ∃ sp outp, frameCycle true initState (List.replicate 30 Event.ONE) = some (sp, outp) ∧
      ∃ s1 s2 out r, frameCycle true sp exampleFrame = some (s1, out) ∧
        frameCycle true s1 exampleFrame = some (s2, out) ∧
        Output.csv r ∈ out ∧ r.bitCount = 26 := by
  obtain ⟨a, _, _, ha⟩ := frameCycle_reset true initState (List.replicate 30 Event.ONE)
    initState_isReset (by rw [List.length_replicate]; decide)
    (by rw [List.length_replicate]; decide)
  obtain ⟨s1, s2, out1, out2, r, g1, g2, g3, _, _, _, g7, g8⟩ :=
    C11_same_events_same_record true
      (cleanup (getFacilityCodeCardNumber (getCardValues a))) exampleFrame
      (cleanup_isReset _) (by decide) (by decide)
  exact ⟨_, _, ha, s1, s2, out1, r, g1, g7 ▸ g2, g3, g8⟩

/-- C12: the pass of `loop` that emits a record ends in the reset state: `bitCount`,
`facilityCode`, `cardNumber`, both holders, both chunks and `dataStream` are 0,
`dataStreamBIN` is empty and each of the `MAX_BITS` elements of `databits` is 0. -/
theorem C12_emitting_pass_resets (e : Bool) (s st : State) (out : List Output)
    (h : loop e s = some (st, out)) (hout : out ≠ []) :
    st.bitCount = 0 ∧ st.facilityCode = 0 ∧ st.cardNumber = 0 ∧
    st.bitHolder1 = 0 ∧ st.bitHolder2 = 0 ∧ st.cardChunk1 = 0 ∧ st.cardChunk2 = 0 ∧
    st.dataStream = 0 ∧ st.dataStreamBIN = [] ∧ ∀ i, i < MAX_BITS → st.databits i = 0 := by
  rcases loop_cases e s st out h with ⟨_, h0⟩ | ⟨_, _, s1, _, hst, _⟩
  · exact absurd h0 hout
  · obtain ⟨a1, a2, a3, a4, a5, a6, a7, a8, a9, a10⟩ :=
      cleanup_isReset (getFacilityCodeCardNumber (getCardValues s1))
    rw [hst]
    exact ⟨a1, a3, a4, a5, a6, a7, a8, a9, a10, a2⟩

/-- The pass that decodes the example frame of §8 ends in the reset state. -/
theorem C12_emitting_pass_resets_witness :
    ∃ st out, loop true { capture initState exampleFrame with weigand_counter := 1 } =
        some (st, out) ∧ out ≠ [] ∧
      (st.bitCount = 0 ∧ st.facilityCode = 0 ∧ st.cardNumber = 0 ∧
        st.bitHolder1 = 0 ∧ st.bitHolder2 = 0 ∧ st.cardChunk1 = 0 ∧ st.cardChunk2 = 0 ∧
        st.dataStream = 0 ∧ st.dataStreamBIN = [] ∧
        ∀ i, i < MAX_BITS → st.databits i = 0) := by
  obtain ⟨d, hd⟩ := example_expiring true
  exact ⟨_, _, hd, report_ne_nil true d,
    C12_emitting_pass_resets true _ _ _ hd (report_ne_nil true d)⟩

/-- C13: on a state with `bitCount = 0`, whatever `flagDone` and `weigand_counter` are,
a pass of `loop` returns with no output and leaves `databits`, both holders, both
chunks, `facilityCode`, `cardNumber` and `dataStreamBIN` as they were, and so does any
number of consecutive passes; the state after a pass that emitted a record has
`bitCount = 0`, so no further record is emitted until an event arrives. -/
theorem C13_no_record_without_bits (e : Bool) (s : State) (hb : s.bitCount = 0) :
    (∃ st, loop e s = some (st, []) ∧ st.bitCount = 0 ∧ st.databits = s.databits ∧
      st.bitHolder1 = s.bitHolder1 ∧ st.bitHolder2 = s.bitHolder2 ∧
      st.cardChunk1 = s.cardChunk1 ∧ st.cardChunk2 = s.cardChunk2 ∧
      st.facilityCode = s.facilityCode ∧ st.cardNumber = s.cardNumber ∧
      st.dataStreamBIN = s.dataStreamBIN) ∧
    (∀ n, ∃ st, passes e n s = some (st, []) ∧ st.bitCount = 0 ∧
      st.databits = s.databits ∧
      st.bitHolder1 = s.bitHolder1 ∧ st.bitHolder2 = s.bitHolder2 ∧
      st.cardChunk1 = s.cardChunk1 ∧ st.cardChunk2 = s.cardChunk2 ∧
      st.facilityCode = s.facilityCode ∧ st.cardNumber = s.cardNumber ∧
      st.dataStreamBIN = s.dataStreamBIN) ∧
    (∀ sp st out, loop e sp = some (st, out) → out ≠ [] →
      ∀ n, ∃ st1, passes e n st = some (st1, []) ∧ st1.bitCount = 0) := by
  refine ⟨?_, fun n => passes_idle_frame e n s hb, ?_⟩
  · obtain ⟨c1, c2, c3, c4, _, c6, c7, c8, c9, c10⟩ := countdown_frame s
    exact ⟨countdown s, loop_idle e s hb, c1.trans hb, c2, c7, c8, c9, c10, c3, c4, c6⟩
  · intro sp st out h hout n
    have h0 : st.bitCount = 0 := by
      rcases loop_cases e sp st out h with ⟨_, h0⟩ | ⟨_, _, s1, _, hst, _⟩
      · exact absurd h0 hout
      · rw [hst]; rfl
    obtain ⟨st1, g1, g2, _⟩ := passes_idle_frame e n st h0
    exact ⟨st1, g1, g2⟩

/-- C13 at the state `setup` leaves, and at the same state with the countdown expired:
3000 passes emit nothing. -/
theorem C13_no_record_without_bits_witness :
    initState.bitCount = 0 ∧
    (∃ st, passes true 3000 initState = some (st, []) ∧ st.bitCount = 0) ∧
    (∃ st, loop true { initState with flagDone := 1, weigand_counter := 0 } =
      some (st, []) ∧ st.bitCount = 0) := by
  refine ⟨rfl, ?_, ?_⟩
  · obtain ⟨st, g1, g2, _⟩ := (C13_no_record_without_bits true initState rfl).2.1 3000
    exact ⟨st, g1, g2⟩
  · obtain ⟨st, g1, g2, _⟩ :=
      (C13_no_record_without_bits true
        { initState with flagDone := 1, weigand_counter := 0 } rfl).1
    exact ⟨st, g1, g2⟩

/-- C14: a pass of `loop` that processes a frame reports one record `r`: it is printed
on the console, passed to the notifier `sendCardsEmail` exactly when `enable_email` is
true and `facilityCode > 0` and `cardNumber > 0`, and passed to the log `writeCSVLog`
in every case, whatever `facilityCode` and `cardNumber` are. -/
theorem C14_notifier_and_log (e : Bool) (s st : State) (out : List Output)
    (h : loop e s = some (st, out)) (hout : out ≠ []) :
    ∃ r, out = [Output.console (decide (r.facilityCode > 0)) r] ++
        (if e = true ∧ r.facilityCode > 0 ∧ r.cardNumber > 0 then [Output.email r]
         else []) ++ [Output.csv r] ∧
      (Output.email r ∈ out ↔ (e = true ∧ r.facilityCode > 0 ∧ r.cardNumber > 0)) ∧
      Output.csv r ∈ out ∧
      (∀ o, o ∈ out → o.record = r) := by
  rcases loop_cases e s st out h with ⟨_, h0⟩ | ⟨_, _, s1, _, _, ho⟩
  · exact absurd h0 hout
  · refine ⟨recordOf (getFacilityCodeCardNumber (getCardValues s1)), ?_, ?_, ?_, ?_⟩
    · rw [ho, report_eq]
    · rw [ho, report_eq]
      by_cases hc : e = true ∧
          (recordOf (getFacilityCodeCardNumber (getCardValues s1))).facilityCode > 0 ∧
          (recordOf (getFacilityCodeCardNumber (getCardValues s1))).cardNumber > 0
      · simp [hc]
      · simp [hc]
    · rw [ho]; exact csv_mem_report _ _
    · intro o hmem
      rw [ho] at hmem
      exact record_of_mem_report e _ o hmem

/-- C14 on the pass that decodes the example frame of §8, the notifier being off: the
record is logged and not mailed. -/
theorem C14_notifier_and_log_witness :
    ∃ st out r, loop false { capture initState exampleFrame with weigand_counter := 1 } =
        some (st, out) ∧ out ≠ [] ∧
      Output.csv r ∈ out ∧ Output.email r ∉ out ∧ (∀ o, o ∈ out → o.record = r) := by
  obtain ⟨d, hd⟩ := example_expiring false
  obtain ⟨r, _, g2, g3, g4⟩ := C14_notifier_and_log false _ _ _ hd (report_ne_nil false d)
  exact ⟨_, _, r, hd, report_ne_nil false d, g3, fun hm => by simpa using g2.1 hm, g4⟩

/-- C15 fails on the code for the example frame of §8, a 26-bit frame: its chunks are
`0x2004` and `0x0604EA`, `print(cardChunk2, HEX)` drops the leading zero of the second
one, and the logged hex value is the 9 characters `2004604EA`, not the 10 characters
`20040604EA` of the 40-bit number `cardChunk1 * 2^24 + cardChunk2`. -/
theorem C15_hex_value_of_example_frame :
    exampleFrame.length = 26 ∧
    (getCardValues (capture initState exampleFrame)).cardChunk1 = 0x2004 ∧
    (getCardValues (capture initState exampleFrame)).cardChunk2 = 0x0604EA ∧
    hexValue (getCardValues (capture initState exampleFrame)) =
      ['2', '0', '0', '4', '6', '0', '4', 'E', 'A'] ∧
    (hexValue (getCardValues (capture initState exampleFrame))).length = 9 ∧
    printHEX 16 (0x2004 * 2 ^ 24 + 0x0604EA) [] =
      ['2', '0', '0', '4', '0', '6', '0', '4', 'E', 'A'] := by
  obtain ⟨h1, h2⟩ := example_chunks
  have hx : hexValue (getCardValues (capture initState exampleFrame)) =
      ['2', '0', '0', '4', '6', '0', '4', 'E', 'A'] := by
    rw [hexValue, h1, h2]
    decide
  refine ⟨by decide, h1, h2, hx, ?_, by decide⟩
  rw [hx]
  rfl

/-- C16 fails on the code: nothing in `loop` masks the interrupts, and an event served
inside the cleanup is lost or half recorded.  A `ONE` event just before the cleanup is
wiped by it.  A `ONE` event after the statement `bitCount = 0;` is counted
(`bitCount = 1`) while the rest of the cleanup clears its bit in `databits[0]` and in
`bitHolder1`: the next frame, a one bit followed by 25 zero bits, is then captured with
26 bits all zero, where the same events after an uninterrupted cleanup give
`databits[0] = 1`. -/
theorem C16_event_inside_cleanup (s : State) :
    runSteps cleanupSteps s = cleanup s ∧
    cleanupInterrupted 0 Event.ONE s = cleanup (handle s Event.ONE) ∧
    (cleanupInterrupted 0 Event.ONE s).bitCount = 0 ∧
    (cleanupInterrupted 1 Event.ONE s).bitCount = 1 ∧
    (cleanupInterrupted 1 Event.ONE s).databits 0 = 0 ∧
    (cleanupInterrupted 1 Event.ONE s).bitHolder1 = 0 ∧
    (handle (cleanup s) Event.ONE).bitCount = 1 ∧
    (handle (cleanup s) Event.ONE).databits 0 = 1 ∧
    (handle (cleanup s) Event.ONE).bitHolder1 = 1 ∧
    (capture (cleanupInterrupted 1 Event.ONE s) (List.replicate 25 Event.ZERO)).bitCount = 26 ∧
    (capture (cleanupInterrupted 1 Event.ONE s) (List.replicate 25 Event.ZERO)).databits 0 = 0 ∧
    (capture (cleanup s) (Event.ONE :: List.replicate 25 Event.ZERO)).bitCount = 26 ∧
    (capture (cleanup s) (Event.ONE :: List.replicate 25 Event.ZERO)).databits 0 = 1 := by
  have hb : (cleanupInterrupted 1 Event.ONE s).bitCount = 1 := by
    simp [cleanupInterrupted, cleanupSteps, runSteps, handle, ISR_INT1, WORD]
  have hd : (cleanupInterrupted 1 Event.ONE s).databits 0 = 0 := by
    simp [cleanupInterrupted, cleanupSteps, runSteps, handle, ISR_INT1, WORD, MAX_BITS]
  obtain ⟨c1, c2⟩ := capture_below (cleanupInterrupted 1 Event.ONE s)
    (List.replicate 25 Event.ZERO) (by rw [hb, List.length_replicate]; decide)
  obtain ⟨r1, r2⟩ := capture_reset (cleanup s) (Event.ONE :: List.replicate 25 Event.ZERO)
    (cleanup_isReset s) (by rw [List.length_cons, List.length_replicate]; decide)
  refine ⟨rfl, rfl, rfl, hb, hd, ?_, ?_, ?_, ?_, ?_, ?_, ?_, ?_⟩
  · simp [cleanupInterrupted, cleanupSteps, runSteps, handle, ISR_INT1, WORD]
  · simp [cleanup, handle, ISR_INT1, WORD]
  · simp [cleanup, handle, ISR_INT1, WORD]
  · simp [cleanup, handle, ISR_INT1, WORD]
  · rw [c1, hb, List.length_replicate]
  · rw [c2 0 (by rw [hb]; decide), hd]
  · rw [r1, List.length_cons, List.length_replicate]
  · rw [r2 0 (by decide)]
    rfl

/-- C17: for every length `L` from 26 to 37 and any two `L`-bit frames captured by the
handlers from reset states, if `getCardValues` leaves the same `cardChunk1` and the same
`cardChunk2` for both, the two frames are the same sequence of bits: the chunk encoding
loses no frame bit, the lengths 33, 36 and 37 included. -/
theorem C17_chunk_encoding_injective (L : Nat) (hL1 : 26 ≤ L) (hL2 : L ≤ 37)
    (s0 t0 : State) (es es1 : List Event) (h0 : IsReset s0) (h1 : IsReset t0)
    (hl : es.length = L) (hl1 : es1.length = L)
    (e1 : (getCardValues (capture s0 es)).cardChunk1 =
      (getCardValues (capture t0 es1)).cardChunk1)
    (e2 : (getCardValues (capture s0 es)).cardChunk2 =
      (getCardValues (capture t0 es1)).cardChunk2) : es = es1 := by
  obtain ⟨a1, a2, a3, a4, a5, a6⟩ := capture_holders s0 es h0 (by omega) (by omega)
  obtain ⟨b1, b2, b3, b4, b5, b6⟩ := capture_holders t0 es1 h1 (by omega) (by omega)
  rw [hl] at a1 a3
  rw [hl1] at b1 b3
  obtain ⟨g1, g2⟩ := getCardValues_injective L hL1 hL2 _ _ a1 b1 a2 b2 a3 b3 a5 b5 a6 b6 e1 e2
  apply frameValue_injective es es1 (hl.trans hl1.symm)
  rw [a4, b4, hl, hl1, g1, g2]

/-- C17 at the example frame of §8: the hypotheses hold for the frame compared with
itself, and the frame of 26 zero bits, a different frame, gets a different pair of
chunks. -/
theorem C17_chunk_encoding_injective_witness :
    IsReset initState ∧ exampleFrame.length = 26 ∧ exampleFrame = exampleFrame ∧
    ¬ ((getCardValues (capture initState exampleFrame)).cardChunk1 =
        (getCardValues (capture initState (List.replicate 26 Event.ZERO))).cardChunk1 ∧
      (getCardValues (capture initState exampleFrame)).cardChunk2 =
        (getCardValues (capture initState (List.replicate 26 Event.ZERO))).cardChunk2) := by
  refine ⟨initState_isReset, by decide,
    C17_chunk_encoding_injective 26 (by decide) (by decide) initState initState exampleFrame
      exampleFrame initState_isReset initState_isReset (by decide) (by decide) rfl rfl, ?_⟩
  intro h
  have hne : exampleFrame ≠ List.replicate 26 Event.ZERO := by decide
  exact hne (C17_chunk_encoding_injective 26 (by decide) (by decide) initState initState
    exampleFrame (List.replicate 26 Event.ZERO) initState_isReset initState_isReset
    (by decide) (by decide) h.1 h.2)

/-- C18: in every state reached from a reset state by events and passes of `loop`, with
at most `MAX_BITS` events per frame, each element of `databits` is 0 or 1 and
`databits[i] = 0` for `bitCount <= i < MAX_BITS`; so the element that `ISR_INT0` leaves
unwritten when it records a 0 bit holds 0. -/
theorem C18_buffer_clear_beyond_bitCount (e : Bool) (s : State)
    (h : Reach e IsReset RoomInFrame s) :
    s.bitCount ≤ MAX_BITS ∧
    (∀ i, i < MAX_BITS → s.databits i = 0 ∨ s.databits i = 1) ∧
    (∀ i, s.bitCount ≤ i → i < MAX_BITS → s.databits i = 0) ∧
    (s.bitCount < MAX_BITS →
      (ISR_INT0 s).bitCount = s.bitCount + 1 ∧ (ISR_INT0 s).databits s.bitCount = 0) := by
  obtain ⟨h1, h2, h3⟩ := reach_buffer e s h
  refine ⟨h1, h2, h3, fun hlt => ⟨?_, ?_⟩⟩
  · rw [ISR_INT0_bitCount]
    exact Nat.mod_eq_of_lt (by unfold MAX_BITS at hlt; unfold WORD; omega)
  · rw [ISR_INT0_databits]
    exact h3 _ (le_refl _) hlt

/-- C18 on the state reached by a 1 bit, a 0 bit and one pass of `loop`. -/
theorem C18_buffer_clear_beyond_bitCount_witness :
    ∃ s, loop true (handle (handle initState Event.ONE) Event.ZERO) = some (s, []) ∧
      s.bitCount ≤ MAX_BITS ∧
      (∀ i, i < MAX_BITS → s.databits i = 0 ∨ s.databits i = 1) ∧
      (∀ i, s.bitCount ≤ i → i < MAX_BITS → s.databits i = 0) := by
  have hl := loop_waiting true (handle (handle initState Event.ONE) Event.ZERO)
    (handle_timer _ _).1 (by rw [(handle_timer _ _).2]; decide)
    (by rw [(handle_timer _ _).2]; decide)
  have hr : Reach true IsReset RoomInFrame
      (handle (handle initState Event.ONE) Event.ZERO) :=
    Reach.event _ _ (Reach.event _ _ (Reach.init _ initState_isReset)
      (show initState.bitCount < MAX_BITS by decide))
      (by
        show (handle initState Event.ONE).bitCount < MAX_BITS
        rw [show (handle initState Event.ONE).bitCount = 1 from by
          rw [show handle initState Event.ONE = ISR_INT1 initState from rfl,
            ISR_INT1_bitCount]; rfl]
        decide)
  obtain ⟨g1, g2, g3, _⟩ :=
    C18_buffer_clear_beyond_bitCount true _ (Reach.pass _ _ _ hr hl)
  exact ⟨_, hl, g1, g2, g3⟩

/-- C19: in every state reached from the state `setup` leaves (`flagDone = 0`,
`weigand_counter = WEIGAND_WAIT_TIME`) by events and passes of `loop`, `flagDone = 0`
implies `1 <= weigand_counter <= WEIGAND_WAIT_TIME`; so the pre-decrement of the
countdown in `loop` yields `weigand_counter - 1` without wrapping below zero. -/
theorem C19_countdown_never_wraps (e : Bool) (s : State)
    (h : Reach e TimerArmed (fun _ => True) s) (hf : s.flagDone = 0) :
    1 ≤ s.weigand_counter ∧ s.weigand_counter ≤ WEIGAND_WAIT_TIME ∧
    (countdown s).weigand_counter = s.weigand_counter - 1 ∧
    (countdown s).weigand_counter < s.weigand_counter := by
  obtain ⟨h1, h2⟩ := reach_timer e s h hf
  have h3 := (countdown_timer s (reach_timer e s h)).2 hf
  exact ⟨h1, h2, h3, by rw [h3]; omega⟩

/-- C19 on the state reached from the state `setup` leaves by one event. -/
theorem C19_countdown_never_wraps_witness :
    (handle initState Event.ZERO).flagDone = 0 ∧
    1 ≤ (handle initState Event.ZERO).weigand_counter ∧
    (handle initState Event.ZERO).weigand_counter ≤ WEIGAND_WAIT_TIME ∧
    (countdown (handle initState Event.ZERO)).weigand_counter =
      (handle initState Event.ZERO).weigand_counter - 1 := by
  obtain ⟨g1, g2, g3, _⟩ := C19_countdown_never_wraps true (handle initState Event.ZERO)
    (Reach.event _ _ (Reach.init _ ⟨rfl, rfl⟩) trivial) (handle_timer _ _).1
  exact ⟨(handle_timer _ _).1, g1, g2, g3⟩

set_option maxRecDepth 8000 in
/-- C20 fails on the code for `bitCount = 36`: the loop of `case 36` counts down from 35
and passes the indices 35, 34, 33 and 32 to `bitWrite(cardChunk1, i, 0)`.  For every other
length from 26 to 37 each index passed to `bitRead` or `bitWrite` is below 32. -/
theorem C20_case36_bit_indices :
    35 ∈ getCardValuesIndices 36 ∧ 34 ∈ getCardValuesIndices 36 ∧
    33 ∈ getCardValuesIndices 36 ∧ 32 ∈ getCardValuesIndices 36 ∧
    (∀ j, j ∈ getCardValuesIndices 36 → j < 36) ∧
    (∀ L, L ∈ [26, 27, 28, 29, 30, 31, 32, 33, 34, 35, 37] →
      ∀ j, j ∈ getCardValuesIndices L → j < 32) := by
  decide

/-- C21 as stated fails for a 26-bit frame with facility code 1 and card number 0:
`consoleLog` tests `facilityCode > 0` alone and does not report the record as a bad
read, while the test `facilityCode > 0 && cardNumber > 0` of `loop` fails, so that with
`enable_email` on the record is not passed to the notifier: the frame cycle emits the
console item flagged as a good read and the log item, and no email item. -/
theorem C21_counterexample :
    facilityOnlyFrame.length = 26 ∧
    ∃ st r, frameCycle true initState facilityOnlyFrame =
        some (st, [Output.console true r, Output.csv r]) ∧
      r.bitCount = 26 ∧ r.facilityCode = 1 ∧ r.cardNumber = 0 ∧
      ¬ (r.facilityCode > 0 ∧ r.cardNumber > 0) := by
  obtain ⟨d, hcyc, hb, hfc, hcn⟩ :=
    frameCycle_26_bits true initState facilityOnlyFrame initState_isReset (by decide)
  have e1 : msbValue (frameBit facilityOnlyFrame) 1 8 = 1 := by decide
  have e2 : msbValue (frameBit facilityOnlyFrame) 9 16 = 0 := by decide
  rw [e1] at hfc
  rw [e2] at hcn
  have r1 : (recordOf d).facilityCode = 1 := hfc
  have r2 : (recordOf d).cardNumber = 0 := hcn
  have hrep : report true d = [Output.console true (recordOf d), Output.csv (recordOf d)] := by
    rw [report_eq, r1, r2]
    rfl
  refine ⟨by decide, cleanup d, recordOf d, ?_, hb, r1, r2, ?_⟩
  · rw [hcyc, hrep]
  · rw [r2]
    exact fun h => absurd h.2 (by decide)

/-- C21, amended: `consoleLog` reports a record as a bad read exactly when
`facilityCode = 0`, while `loop` passes it to the notifier under
`facilityCode > 0 && cardNumber > 0`.  On every pass that processes a frame the console
item carries the flag of the first test and the email item follows the second; a record
reported as a bad read always fails the good-read test of `loop`, and the two tests
agree on the record exactly when it is not one with `facilityCode > 0` and
`cardNumber = 0`. -/
theorem C21_read_quality_tests (e : Bool) (s st : State) (out : List Output)
    (h : loop e s = some (st, out)) (hout : out ≠ []) :
    ∃ g r, out = [Output.console g r] ++
        (if e = true ∧ r.facilityCode > 0 ∧ r.cardNumber > 0 then [Output.email r]
         else []) ++ [Output.csv r] ∧
      (g = false ↔ r.facilityCode = 0) ∧
      (g = false → ¬ (r.facilityCode > 0 ∧ r.cardNumber > 0)) ∧
      ((g = false ↔ ¬ (r.facilityCode > 0 ∧ r.cardNumber > 0)) ↔
        ¬ (r.facilityCode > 0 ∧ r.cardNumber = 0)) := by
  rcases loop_cases e s st out h with ⟨_, h0⟩ | ⟨_, _, s1, _, _, ho⟩
  · exact absurd h0 hout
  · have hg : ∀ n : Nat, (decide (n > 0) = false ↔ n = 0) := by
      intro n
      rw [decide_eq_false_iff_not]
      omega
    refine ⟨decide ((recordOf (getFacilityCodeCardNumber (getCardValues s1))).facilityCode > 0),
      recordOf (getFacilityCodeCardNumber (getCardValues s1)), ?_, hg _, ?_, ?_⟩
    · rw [ho, report_eq]
    · intro hb
      have := (hg _).1 hb
      omega
    · rw [hg]
      omega

/-- C21, amended, on the pass that decodes the example frame of §8. -/
theorem C21_read_quality_tests_witness :
    ∃ st out g r, loop true { capture initState exampleFrame with weigand_counter := 1 } =
        some (st, out) ∧ out ≠ [] ∧
      out = [Output.console g r] ++
        (if true = true ∧ r.facilityCode > 0 ∧ r.cardNumber > 0 then [Output.email r]
         else []) ++ [Output.csv r] ∧
      (g = false ↔ r.facilityCode = 0) := by
  obtain ⟨d, hd⟩ := example_expiring true
  obtain ⟨g, r, g1, g2, _⟩ := C21_read_quality_tests true _ _ _ hd (report_ne_nil true d)
  exact ⟨_, _, g, r, hd, report_ne_nil true d, g1, g2⟩

/-- C23: for every `bitCount` of at most 255, hence for every `bitCount` of at most
`MAX_BITS`, the counter loop of `getDataStream` ends: its exit test fails with the 8-bit
counter at `i = bitCount`, after exactly `bitCount` runs of the loop body and with no
wrap of the counter, whatever number of loop tests above `bitCount` is allowed; the state
it leaves is the one `getDataStream` goes on with. -/
theorem C23_counter_loop_ends (s : State) (hb : s.bitCount ≤ 255) :
    MAX_BITS ≤ 255 ∧
    ∃ s1, dataStreamLoop 257 0 s = some s1 ∧
      dataStreamLoopTrace 257 0 0 false s = some (s1, s.bitCount, s.bitCount, false) ∧
      ∀ fuel, s.bitCount < fuel →
        dataStreamLoopTrace fuel 0 0 false s = some (s1, s.bitCount, s.bitCount, false) := by
  have key : ∀ fuel, s.bitCount < fuel →
      dataStreamLoopTrace fuel 0 0 false s = some
        ({ s with
          dataStream := List.foldl (fun a j => ((a <<< 1) % WORD) ||| s.databits j)
            s.dataStream (List.range' 0 s.bitCount) }, s.bitCount, s.bitCount, false) := by
    intro fuel hf
    have h := dataStreamLoopTrace_eq s.bitCount fuel 0 0 false s (by omega) hb hf
    rw [Nat.zero_add] at h
    exact h
  refine ⟨by decide, _, dataStreamLoop_eq s.bitCount 257 0 s (by omega) hb (by omega),
    key 257 (by omega), key⟩

/-- C23 at the largest count an 8-bit counter reaches, 255, and at `MAX_BITS`. -/
theorem C23_counter_loop_ends_witness :
    (∃ s1, dataStreamLoopTrace 257 0 0 false { initState with bitCount := 255 } =
      some (s1, 255, 255, false)) ∧
    (∃ s1, dataStreamLoopTrace 257 0 0 false { initState with bitCount := MAX_BITS } =
      some (s1, MAX_BITS, MAX_BITS, false)) := by
  obtain ⟨_, s1, _, h1, _⟩ :=
    C23_counter_loop_ends { initState with bitCount := 255 } (Nat.le_refl 255)
  obtain ⟨_, s2, _, h2, _⟩ :=
    C23_counter_loop_ends { initState with bitCount := MAX_BITS }
      (show MAX_BITS ≤ 255 by decide)
  exact ⟨⟨s1, h1⟩, ⟨s2, h2⟩⟩

end Doppelganger
